import Mathlib

/-!
# PixelFlow — verification of the particle-physics kernel and the pixel sampler

Shallow embedding of the algorithmic core of the PixelFlow repository:

* `stratifiedSampleC` — the CPU-side stratified importance sampler
  (`src/PixelFlow/Engine/Generators/ImageParticleGenerator/Sampling/Helpers/PixelSampler.c`).
  C `float` arithmetic is modelled by exact rational arithmetic (the sampler
  performs no square roots, so every intermediate value is rational);
  C `int` is modelled by `ℤ` with C truncating division (`Int.tdiv`).
  Pointer arguments are modelled by `Option (List _)`; the output buffer is a
  list whose prefix the function overwrites.

* `updateParticles` — the per-particle GPU physics kernel
  (`src/PixelFlow/Engine/Shaders/Compute/Physics.h`) together with its helpers
  from `Core/Utils.h`.  Metal `float` is modelled by the type `FP`:
  exact real arithmetic extended with `inf`, `ninf` and `nan`, with IEEE-754
  special-value propagation and Metal's `min`/`max`/`clamp` NaN behaviour
  (`min(x,y) = y if y < x else x`).  Rounding of finite intermediate results is
  not modelled (finite arithmetic is exact).  The legacy, never-read third
  vector component of `position`/`velocity`/`targetPosition` is omitted; the
  two live components are modelled.

Constants that the headers pull in from `Simulation.h` (not part of the
sources at hand) are modelled from the specification and marked as such.
-/

namespace PixelFlow

/- ============================================================ -/
/- Pixel importance sampler (PixelSampler.h / PixelSampler.c)   -/
/- ============================================================ -/

/-- `SampleC` from `PixelSampler.h`: pixel coordinate plus RGBA. -/
structure SampleC where
  x : ℤ
  y : ℤ
  r : ℚ
  g : ℚ
  b : ℚ
  a : ℚ
deriving DecidableEq, Repr

/-- C cast `(int)` of a float value: truncation toward zero. -/
def ratTrunc (q : ℚ) : ℤ := if 0 ≤ q then ⌊q⌋ else ⌈q⌉

/-- Per-sample importance, `s.a * ((s.r + s.g + s.b) / 3.0f)`
(`PixelSampler.c`, lines 47–48, recomputed in the bubble sort). -/
def sampleImportance (s : SampleC) : ℚ := s.a * ((s.r + s.g + s.b) / 3)

/-- `bandHeight = (imageHeight + bands - 1) / bands` (C integer division). -/
def bandHeightOf (imageHeight bands : ℤ) : ℤ := (imageHeight + bands - 1).tdiv bands

/-- `int band = s.y / bandHeight; if (band >= bands) band = bands - 1;`
(the C code clamps only the upper side). -/
def bandOf (s : SampleC) (bandHeight bands : ℤ) : ℤ :=
  let b := s.y.tdiv bandHeight
  if b ≥ bands then bands - 1 else b

/-- Bucket `i`: the input samples falling into band `i`, in input order
(the C code appends to `buckets[band]` while scanning the input). -/
def bucketOf (samples : List SampleC) (bandHeight bands : ℤ) (i : ℤ) : List SampleC :=
  samples.filter (fun s => bandOf s bandHeight bands = i)

/-- `totalImportance`: accumulated over every input sample
(`PixelSampler.c`, line 50), independent of bucket placement. -/
def rawTotalImportance (samples : List SampleC) : ℚ :=
  (samples.map sampleImportance).sum

/-- Per-band importance sums (`bucketImportance` after the input scan). -/
def rawBandImportances (samples : List SampleC) (bandHeight bands : ℤ) : List ℚ :=
  (List.range bands.toNat).map
    (fun (i : ℕ) => ((bucketOf samples bandHeight bands (i : ℤ)).map sampleImportance).sum)

/-- Band importances after the degenerate-importance fallback:
if the grand total is `≤ 0`, each band's importance becomes its
population count (`PixelSampler.c`, lines 71–77). -/
def bandImportancesOf (samples : List SampleC) (bandHeight bands : ℤ) : List ℚ :=
  if rawTotalImportance samples ≤ 0 then
    (List.range bands.toNat).map
      (fun (i : ℕ) => ((bucketOf samples bandHeight bands (i : ℤ)).length : ℚ))
  else rawBandImportances samples bandHeight bands

/-- The grand total used for the quota division: either the raw accumulated
total or, after the fallback, the sum of the per-band population counts. -/
def totalImportanceOf (samples : List SampleC) (bandHeight bands : ℤ) : ℚ :=
  if rawTotalImportance samples ≤ 0 then
    ((List.range bands.toNat).map
      (fun (i : ℕ) => ((bucketOf samples bandHeight bands (i : ℤ)).length : ℚ))).sum
  else rawTotalImportance samples

/-- Proportional quota with C float-to-int truncation:
`quota[i] = (int)((bucketImportance[i] / totalImportance) * targetCount)`. -/
def rawQuotas (imps : List ℚ) (total : ℚ) (target : ℤ) : List ℤ :=
  imps.map (fun imp => ratTrunc (imp / total * (target : ℚ)))

/-- The argmax scan of the remainder loop (`PixelSampler.c`, lines 93–100):
`maxBand = 0; maxImp = 0.0; for i: if (imps[i] > maxImp) { maxImp = imps[i]; maxBand = i; }`.
Strict `>` means the earliest band wins ties. -/
def argmaxScan : List ℚ → ℕ → ℕ → ℚ → ℕ
  | [], _, best, _ => best
  | imp :: rest, i, best, bestImp =>
      if bestImp < imp then argmaxScan rest (i + 1) i imp
      else argmaxScan rest (i + 1) best bestImp

/-- The band the remainder loop awards the next unit to. -/
def argmaxBand (imps : List ℚ) : ℕ := argmaxScan imps 0 0 0

/-- The remainder-distribution loop (`PixelSampler.c`, lines 92–104):
while `assigned < targetCount`, award one unit to the band with the largest
importance and zero that band's importance.  The loop runs exactly
`targetCount - assigned` times; `fuel` is that count.  Returns the final
quotas, the final importances and the list of awarded bands in order. -/
def distributeRemainder (quotas : List ℤ) (imps : List ℚ) :
    ℕ → List ℤ × List ℚ × List ℕ
  | 0 => (quotas, imps, [])
  | fuel + 1 =>
      let b := argmaxBand imps
      let quotas' := quotas.set b (quotas.getD b 0 + 1)
      let imps' := imps.set b 0
      let r := distributeRemainder quotas' imps' fuel
      (r.1, r.2.1, b :: r.2.2)

/-- One left-to-right adjacent-swap pass of the bubble sort
(`PixelSampler.c`, lines 114–124), carrying the element currently being
compared: swap whenever `imp(left) < imp(right)` (descending order). -/
def bubbleAux (cur : SampleC) : List SampleC → List SampleC
  | [] => [cur]
  | b :: rest =>
      if sampleImportance cur < sampleImportance b then b :: bubbleAux cur rest
      else cur :: bubbleAux b rest

/-- One full pass of the bubble sort over the list. -/
def bubblePass : List SampleC → List SampleC
  | [] => []
  | a :: rest => bubbleAux a rest

/-- `n` bubble passes. -/
def bubblePassN : ℕ → List SampleC → List SampleC
  | 0, l => l
  | n + 1, l => bubblePassN n (bubblePass l)

/-- The C bubble sort: `count - 1` passes of the adjacent-swap loop.
(The C outer loop shrinks the scanned range; a full pass over the already
sorted suffix performs no swaps, so the result is identical.) -/
def bubbleSort (l : List SampleC) : List SampleC := bubblePassN (l.length - 1) l

/-- Stride selection `for (j = 0; j < count; j += step)`, fuelled by the list
length so the definition is structural. -/
def strideAux (step : ℕ) : ℕ → List SampleC → List SampleC
  | 0, _ => []
  | _, [] => []
  | fuel + 1, a :: rest => a :: strideAux step fuel (rest.drop (step - 1))

/-- Elements at indices `0, step, 2*step, …` of `l`. -/
def strideTake (step : ℕ) (l : List SampleC) : List SampleC :=
  strideAux step l.length l

/-- One band of the first selection pass (`PixelSampler.c`, lines 108–130):
skip empty bands and zero quotas, sort the bucket by importance descending,
then stride-select until the band or the shared `targetCount` budget is
exhausted.  `step = (count / quota > 0) ? count / quota : 1` with C integer
division. -/
def selectBand (buckets : ℕ → List SampleC) (quotas : List ℤ) (target : ℕ)
    (out : List SampleC) (i : ℕ) : List SampleC :=
  let bkt := buckets i
  if bkt.length = 0 ∨ quotas.getD i 0 = 0 then out
  else
    let sorted := bubbleSort bkt
    let stepZ := (bkt.length : ℤ).tdiv (quotas.getD i 0)
    let step := if 0 < stepZ then stepZ.toNat else 1
    out ++ (strideTake step sorted).take (target - out.length)

/-- First selection pass: all bands in order. -/
def selectionPass (buckets : ℕ → List SampleC) (quotas : List ℤ) (bands target : ℕ) :
    List SampleC :=
  (List.range bands).foldl (selectBand buckets quotas target) []

/-- The body of the second pass (`PixelSampler.c`, lines 137–150): append a
sample unless the target is met or its `(x, y)` pair is already present. -/
def dedupInsert (target : ℕ) (out : List SampleC) (e : SampleC) : List SampleC :=
  if out.length < target ∧ out.all (fun w => ¬(w.x = e.x ∧ w.y = e.y)) then
    out ++ [e]
  else out

/-- One band of the second pass. -/
def dedupBand (buckets : ℕ → List SampleC) (target : ℕ)
    (out : List SampleC) (i : ℕ) : List SampleC :=
  (buckets i).foldl (dedupInsert target) out

/-- Second, gap-filling pass (`PixelSampler.c`, lines 133–153): scan all bands
in order and append any sample whose `(x, y)` pair is not yet present, until
the target is met or the input is exhausted. -/
def dedupPass (buckets : ℕ → List SampleC) (bands target : ℕ)
    (out₀ : List SampleC) : List SampleC :=
  (List.range bands).foldl (dedupBand buckets target) out₀

/-- The entries `stratifiedSampleC` writes into `outSamples`, in order,
for a call that passed the argument guards. -/
def stratifiedWrites (samples : List SampleC) (targetCount imageHeight bands : ℤ) :
    List SampleC :=
  let bh := bandHeightOf imageHeight bands
  let buckets : ℕ → List SampleC := fun i => bucketOf samples bh bands (i : ℤ)
  let imps := bandImportancesOf samples bh bands
  let total := totalImportanceOf samples bh bands
  if total ≤ 0 then []
  else
    let q₀ := rawQuotas imps total targetCount
    let quotas := (distributeRemainder q₀ imps (targetCount - q₀.sum).toNat).1
    let p1 := selectionPass buckets quotas bands.toNat targetCount.toNat
    if p1.length < targetCount.toNat then dedupPass buckets bands.toNat targetCount.toNat p1
    else p1

/-- Overwriting the prefix of the caller-supplied output buffer. -/
def writeBack (writes outBuf : List SampleC) : List SampleC :=
  writes ++ outBuf.drop writes.length

/-- `stratifiedSampleC` (`PixelSampler.c`, lines 22–162).  Null pointers are
modelled by `none`; the result is the final content of `outSamples`.
The C loop reads `samples[0 .. sampleCount-1]`, modelled by
`take sampleCount.toNat`. -/
def stratifiedSampleC (samples : Option (List SampleC))
    (sampleCount targetCount imageHeight bands : ℤ)
    (outSamples : Option (List SampleC)) : Option (List SampleC) :=
  if samples.isNone ∨ sampleCount ≤ 0 ∨ targetCount ≤ 0 ∨ outSamples.isNone then
    outSamples
  else if bands ≤ 0 ∨ imageHeight ≤ 0 then outSamples
  else
    some (writeBack
      (stratifiedWrites ((samples.getD []).take sampleCount.toNat)
        targetCount imageHeight bands)
      (outSamples.getD []))

/- ============================================================ -/
/- Metal float model                                            -/
/- ============================================================ -/

/-- Model of a Metal `float`: exact real arithmetic extended with the IEEE-754
special values.  Finite arithmetic is exact (no rounding, no overflow);
special values propagate as in IEEE-754; all ordered comparisons involving
`nan` are false.  The two signed zeros are identified. -/
inductive FP where
  | fin (x : ℝ)
  | inf
  | ninf
  | nan

noncomputable section
open scoped Classical

namespace FP

/-- IEEE `<`. -/
def lt : FP → FP → Prop
  | nan, _ => False
  | _, nan => False
  | ninf, ninf => False
  | ninf, _ => True
  | _, ninf => False
  | fin x, fin y => x < y
  | fin _, inf => True
  | inf, _ => False

/-- IEEE `<=`. -/
def le : FP → FP → Prop
  | nan, _ => False
  | _, nan => False
  | ninf, _ => True
  | _, inf => True
  | fin x, fin y => x ≤ y
  | fin _, ninf => False
  | inf, _ => False

/-- IEEE `>`. -/
def gt (a b : FP) : Prop := lt b a

/-- IEEE `>=`. -/
def ge (a b : FP) : Prop := le b a

/-- IEEE `==` (`nan` is not equal to anything, including itself). -/
def feq : FP → FP → Prop
  | fin x, fin y => x = y
  | inf, inf => True
  | ninf, ninf => True
  | _, _ => False

def neg : FP → FP
  | fin x => fin (-x)
  | inf => ninf
  | ninf => inf
  | nan => nan

def add : FP → FP → FP
  | nan, _ => nan
  | _, nan => nan
  | fin x, fin y => fin (x + y)
  | inf, ninf => nan
  | ninf, inf => nan
  | inf, _ => inf
  | _, inf => inf
  | ninf, _ => ninf
  | _, ninf => ninf

def sub (a b : FP) : FP := add a (neg b)

def mul : FP → FP → FP
  | nan, _ => nan
  | _, nan => nan
  | fin x, fin y => fin (x * y)
  | fin x, inf => if 0 < x then inf else if x < 0 then ninf else nan
  | fin x, ninf => if 0 < x then ninf else if x < 0 then inf else nan
  | inf, fin y => if 0 < y then inf else if y < 0 then ninf else nan
  | ninf, fin y => if 0 < y then ninf else if y < 0 then inf else nan
  | inf, inf => inf
  | inf, ninf => ninf
  | ninf, inf => ninf
  | ninf, ninf => inf

def div : FP → FP → FP
  | nan, _ => nan
  | _, nan => nan
  | fin x, fin y =>
      if y = 0 then (if x = 0 then nan else if 0 < x then inf else ninf)
      else fin (x / y)
  | fin _, inf => fin 0
  | fin _, ninf => fin 0
  | inf, fin y => if 0 ≤ y then inf else ninf
  | ninf, fin y => if 0 ≤ y then ninf else inf
  | _, _ => nan

/-- IEEE square root: `nan` for negative finite inputs and `-∞`. -/
def sqrt : FP → FP
  | nan => nan
  | inf => inf
  | ninf => nan
  | fin x => if x < 0 then nan else fin (Real.sqrt x)

def abs : FP → FP
  | fin x => fin |x|
  | nan => nan
  | _ => inf

def isfinite : FP → Prop
  | fin _ => True
  | _ => False

/-- Metal `min(x, y)`: returns `y` if `y < x`, otherwise `x`. -/
def fmin (x y : FP) : FP := if lt y x then y else x

/-- Metal `max(x, y)`: returns `y` if `x < y`, otherwise `x`. -/
def fmax (x y : FP) : FP := if lt x y then y else x

/-- Metal `clamp(x, lo, hi) = min(max(x, lo), hi)`. -/
def fclamp (x lo hi : FP) : FP := fmin (fmax x lo) hi

def fsin : FP → FP
  | fin x => fin (Real.sin x)
  | _ => nan

def fcos : FP → FP
  | fin x => fin (Real.cos x)
  | _ => nan

def ffloor : FP → FP
  | fin x => fin ⌊x⌋
  | inf => inf
  | ninf => ninf
  | nan => nan

/-- Metal `fract(x) = x - floor(x)`. -/
def fract (x : FP) : FP := sub x (ffloor x)

/-- Rounding to nearest with halves away from zero, on the reals. -/
def roundAway (x : ℝ) : ℝ := if 0 ≤ x then (⌊x + 1/2⌋ : ℤ) else -(⌊-x + 1/2⌋ : ℤ)

/-- Metal `round(x)`: nearest integer, halfway cases away from zero. -/
def fround : FP → FP
  | fin x => fin (roundAway x)
  | inf => inf
  | ninf => ninf
  | nan => nan

end FP

/-- A Metal `float2` (also standing in for the live `.xy` part of the
`float3` particle fields; the legacy third component is never read by the
kernel and is omitted from the model). -/
structure Vec2 where
  x : FP
  y : FP

/-- A Metal `float4` (RGBA color). -/
structure Float4 where
  x : FP
  y : FP
  z : FP
  w : FP

def add2 (v w : Vec2) : Vec2 := ⟨FP.add v.x w.x, FP.add v.y w.y⟩
def sub2 (v w : Vec2) : Vec2 := ⟨FP.sub v.x w.x, FP.sub v.y w.y⟩

/-- `float2 * float` (componentwise scale). -/
def scale2 (v : Vec2) (k : FP) : Vec2 := ⟨FP.mul v.x k, FP.mul v.y k⟩

/-- Metal `dot(v, w)` in two dimensions. -/
def dot2 (v w : Vec2) : FP := FP.add (FP.mul v.x w.x) (FP.mul v.y w.y)

/-- Metal `length(v) = sqrt(dot(v, v))`. -/
def length2 (v : Vec2) : FP := FP.sqrt (dot2 v v)

/- ============================================================ -/
/- Data model (Common.h) and Simulation.h constants             -/
/- ============================================================ -/

/-- `Particle` from `Common.h`.  The GPU-side padding and the unused third
vector components are omitted; `uint` fields are modelled by `ℕ`. -/
structure Particle where
  position : Vec2
  velocity : Vec2
  targetPosition : Vec2
  color : Float4
  originalColor : Float4
  size : FP
  baseSize : FP
  life : FP
  idleChaoticMotion : ℕ

/-- `SimulationParams` from `Common.h` (padding and the reserved block,
which carry no data, are omitted). -/
structure SimulationParams where
  state : ℕ
  pixelSizeMode : ℕ
  colorsLocked : ℕ
  deltaTime : FP
  collectionSpeed : FP
  brightnessBoost : FP
  screenSize : Vec2
  minParticleSize : FP
  maxParticleSize : FP
  time : FP
  particleCount : ℕ
  idleChaoticMotion : ℕ

/-- Modelled from the spec: the simulation-state enum
(idle / chaotic / collecting / collected / storm) lives in `Simulation.h`,
which is not among the sources; the enum values are modelled in spec order. -/
def SIMULATION_STATE_IDLE : ℕ := 0

/-- Modelled from the spec: see `SIMULATION_STATE_IDLE`. -/
def SIMULATION_STATE_CHAOTIC : ℕ := 1

/-- Modelled from the spec: see `SIMULATION_STATE_IDLE`. -/
def SIMULATION_STATE_COLLECTING : ℕ := 2

/-- Modelled from the spec: see `SIMULATION_STATE_IDLE`. -/
def SIMULATION_STATE_COLLECTED : ℕ := 3

/-- Modelled from the spec: see `SIMULATION_STATE_IDLE`. -/
def SIMULATION_STATE_LIGHTNING_STORM : ℕ := 4

/-- Modelled from the spec: `life >= PARTICLE_ALIVE` is the phase-accumulator
("alive") range, so the alive threshold is modelled as `0`
(`Simulation.h` is not among the sources). -/
def PARTICLE_ALIVE : FP := FP.fin 0

/-- Modelled from the spec: the reserved terminal "collected" sentinel for
`life`, below the alive range; modelled as `-1`. -/
def PARTICLE_COLLECTED : FP := FP.fin (-1)

/-- Modelled from the spec: lower end of the accepted `deltaTime` range. -/
def MIN_DT : FP := FP.fin (1/1000)

/-- Modelled from the spec: upper end of the accepted `deltaTime` range. -/
def MAX_DT : FP := FP.fin (1/10)

/-- Modelled from the spec: the default fixed timestep substituted for a
rejected `deltaTime` (60 fps). -/
def DEFAULT_DT : FP := FP.fin (1/60)

/-- Modelled from the spec: the safe-normalization length threshold. -/
def MIN_VECTOR_LENGTH : FP := FP.fin (1/1000000)

/-- Modelled from the spec: the "large sentinel bound" of the numeric-safety
invariant — every stored component must be finite with magnitude below it. -/
def MAX_FLOAT_VALUE : ℝ := 10 ^ (30 : ℕ)

/-- Modelled from the spec: the `life` phase accumulator wraps at 2π;
the header constant is a float literal approximating 2π. -/
def TWO_PI : FP := FP.fin 6.2831853

/- ============================================================ -/
/- Utils.h: hash and turbulent motion                           -/
/- ============================================================ -/

def HASH_MULTIPLIER : FP := FP.fin 43758.5453123

/-- `hash(n) = fract(sin(n) * HASH_MULTIPLIER)` (`Utils.h`, line 80). -/
def hash (n : FP) : FP := FP.fract (FP.mul (FP.fsin n) HASH_MULTIPLIER)

def TURBULENT_SEED_FACTOR : FP := FP.fin 17.3
def TURBULENT_LARGE_FREQ_X : FP := FP.fin 0.2
def TURBULENT_LARGE_FREQ_Y : FP := FP.fin 0.15
def TURBULENT_LARGE_FREQ_Y_MOD : FP := FP.fin 1.3
def TURBULENT_LARGE_AMP : FP := FP.fin 1.5
def TURBULENT_MID_FREQ_X : FP := FP.fin 0.8
def TURBULENT_MID_FREQ_X_MOD : FP := FP.fin 0.7
def TURBULENT_MID_FREQ_Y : FP := FP.fin 1.1
def TURBULENT_MID_FREQ_Y_MOD : FP := FP.fin 1.1
def TURBULENT_MID_AMP : FP := FP.fin 0.8
def TURBULENT_SMALL_FREQ_X : FP := FP.fin 3
def TURBULENT_SMALL_FREQ_X_MOD : FP := FP.fin 2
def TURBULENT_SMALL_FREQ_Y : FP := FP.fin 3.5
def TURBULENT_SMALL_FREQ_Y_MOD : FP := FP.fin 2.5
def TURBULENT_SMALL_AMP : FP := FP.fin 0.3
def TURBULENT_JUMP_TRIGGER_THRESHOLD : FP := FP.fin 0.98
def TURBULENT_JUMP_TIME_SCALE : FP := FP.fin 0.5
def TURBULENT_JUMP_STRENGTH : FP := FP.fin 4

/-- `turbulentMotion` (`Utils.h`, lines 127–176): spatially correlated
turbulent offset field, accumulated term by term as in the source. -/
def turbulentMotion (position : Vec2) (time : FP) (particleId : ℕ) : Vec2 :=
  let baseSeed := FP.mul (FP.fin (particleId : ℝ)) TURBULENT_SEED_FACTOR
  let fieldPos := scale2 position (FP.fin 2.5)
  let ox := FP.add (FP.fin 0)
    (FP.mul (FP.fsin (FP.add (FP.add (FP.mul fieldPos.y TURBULENT_LARGE_FREQ_X)
      (FP.mul time (FP.fin 0.6))) baseSeed)) TURBULENT_LARGE_AMP)
  let oy := FP.add (FP.fin 0)
    (FP.mul (FP.fcos (FP.add (FP.add (FP.mul fieldPos.x TURBULENT_LARGE_FREQ_Y)
      (FP.mul time (FP.fin 0.6))) (FP.mul baseSeed TURBULENT_LARGE_FREQ_Y_MOD)))
      TURBULENT_LARGE_AMP)
  let ox := FP.add ox
    (FP.mul (FP.fcos (FP.add (FP.add (FP.mul fieldPos.x TURBULENT_MID_FREQ_X)
      (FP.mul time (FP.fin 1.1))) (FP.mul baseSeed TURBULENT_MID_FREQ_X_MOD)))
      TURBULENT_MID_AMP)
  let oy := FP.add oy
    (FP.mul (FP.fsin (FP.add (FP.add (FP.mul fieldPos.y TURBULENT_MID_FREQ_Y)
      (FP.mul time (FP.fin 1.1))) (FP.mul baseSeed TURBULENT_MID_FREQ_Y_MOD)))
      TURBULENT_MID_AMP)
  let ox := FP.add ox
    (FP.mul (FP.fsin (FP.add (FP.add
      (FP.mul (FP.add fieldPos.x fieldPos.y) TURBULENT_SMALL_FREQ_X)
      (FP.mul time (FP.fin 2))) (FP.mul baseSeed TURBULENT_SMALL_FREQ_X_MOD)))
      TURBULENT_SMALL_AMP)
  let oy := FP.add oy
    (FP.mul (FP.fcos (FP.add (FP.add
      (FP.mul (FP.sub fieldPos.y fieldPos.x) TURBULENT_SMALL_FREQ_Y)
      (FP.mul time (FP.fin 2))) (FP.mul baseSeed TURBULENT_SMALL_FREQ_Y_MOD)))
      TURBULENT_SMALL_AMP)
  let jumpSeed := hash (FP.add (FP.add (FP.add
    (FP.ffloor (FP.mul fieldPos.x (FP.fin 3)))
    (FP.mul (FP.ffloor (FP.mul fieldPos.y (FP.fin 3))) (FP.fin 17)))
    (FP.ffloor (FP.mul time TURBULENT_JUMP_TIME_SCALE))) baseSeed)
  if FP.gt jumpSeed TURBULENT_JUMP_TRIGGER_THRESHOLD then
    let impulse := FP.mul (FP.sub (hash (FP.add jumpSeed baseSeed)) (FP.fin 0.5))
      TURBULENT_JUMP_STRENGTH
    ⟨FP.add ox impulse, FP.add oy impulse⟩
  else ⟨ox, oy⟩

/- ============================================================ -/
/- Physics.h: constants                                         -/
/- ============================================================ -/

def COLLECTION_BASE_SPEED : FP := FP.fin 30
def COLLECTION_MIN_SPEED : FP := FP.fin 0.25
def COLLECTION_SNAP_PIXELS : FP := FP.fin 1
def COLLECTION_VELOCITY_DAMPING : FP := FP.fin 0.9
def CHAOTIC_MOVEMENT_SCALE : FP := FP.fin 0.08
def CHAOTIC_VELOCITY_DAMPING_NORMAL : FP := FP.fin 0.98
def CHAOTIC_VELOCITY_DAMPING_HIGH : FP := FP.fin 0.95
def CHAOTIC_HIGH_SPEED_THRESHOLD : FP := FP.fin 0.3
def STORM_ELECTRIC_FORCE : FP := FP.fin 4
def STORM_ELECTRIC_DAMPING : FP := FP.fin 0.2
def STORM_BASE_TURBULENCE : FP := FP.fin 0.5
def STORM_VELOCITY_DAMPING : FP := FP.fin 0.98
def ELECTRIC_HUE_OFFSET_G : FP := FP.fin 2.1
def ELECTRIC_HUE_OFFSET_B : FP := FP.fin 4.2
def MAX_VELOCITY : FP := FP.fin 15

/-- The real value of `MAX_VELOCITY`, for speed statements. -/
def MAX_VELOCITY_R : ℝ := 15

def BOUNDARY_BOUNCE_DAMPING : FP := FP.fin 0.9
def PARTICLE_PULSE_AMPLITUDE : FP := FP.fin 0.1
def NDC_MAX_POS : FP := FP.fin 1
def NDC_MIN_POS : FP := FP.fin (-1)
def BOUNDARY_MARGIN : FP := FP.fin 0.02
def REPULSION_ZONE : FP := FP.fin 0.05
def REPULSION_STRENGTH : FP := FP.fin 2

/- ============================================================ -/
/- Physics.h: helper functions                                  -/
/- ============================================================ -/

/-- `safeDeltaTimeForPhysics` (`Physics.h`, lines 72–74). -/
def safeDeltaTimeForPhysics (dt : FP) : FP :=
  if dt.isfinite ∧ FP.gt dt MIN_DT ∧ FP.lt dt MAX_DT then dt else DEFAULT_DT

/-- `safeNormalize2` (`Physics.h`, lines 76–79). -/
def safeNormalize2 (v : Vec2) : Vec2 :=
  let len := length2 v
  if FP.gt len MIN_VECTOR_LENGTH then ⟨FP.div v.x len, FP.div v.y len⟩
  else ⟨FP.fin 0, FP.fin 0⟩

/-- `isFloatSafe` (`Physics.h`, lines 81–83):
`isfinite(value) && abs(value) < MAX_FLOAT_VALUE`. -/
def isFloatSafe (value : FP) : Prop :=
  value.isfinite ∧ FP.lt (FP.abs value) (FP.fin MAX_FLOAT_VALUE)

/- ============================================================ -/
/- Physics.h: movement calculation                              -/
/- ============================================================ -/

/-- `calculateCollectionMovement` (`Physics.h`, lines 93–142).  The shared
atomic counter is modelled by returning the number of increments this
invocation performs (`0` or `1`). -/
def calculateCollectionMovement (p : Particle) (params : SimulationParams)
    (safeDt : FP) : Particle × ℕ :=
  let pos := p.position
  let target := p.targetPosition
  let toTarget := sub2 target pos
  let distToTarget := length2 toTarget
  let safeScreen : Vec2 :=
    ⟨FP.fmax params.screenSize.x (FP.fin 1), FP.fmax params.screenSize.y (FP.fin 1)⟩
  let pixelToNDC : Vec2 :=
    ⟨FP.div (FP.fin 2) safeScreen.x, FP.div (FP.fin 2) safeScreen.y⟩
  let snapThreshold := FP.mul (FP.fmin pixelToNDC.x pixelToNDC.y) COLLECTION_SNAP_PIXELS
  if FP.le distToTarget snapThreshold then
    let p := { p with position := target, velocity := ⟨FP.fin 0, FP.fin 0⟩ }
    if FP.ge p.life PARTICLE_ALIVE then
      ({ p with life := PARTICLE_COLLECTED }, 1)
    else (p, 0)
  else
    let baseSpeedPixels :=
      if FP.gt params.collectionSpeed (FP.fin 0) then
        FP.mul params.collectionSpeed COLLECTION_BASE_SPEED
      else COLLECTION_BASE_SPEED
    let distPixels := FP.div distToTarget
      (FP.fmax (FP.fmin pixelToNDC.x pixelToNDC.y) (FP.fin (1/1000000)))
    let ease := FP.fclamp (FP.div distPixels (FP.fin 12)) (FP.fin 0.1) (FP.fin 1)
    let moveDistancePixels := FP.mul (FP.mul baseSpeedPixels safeDt) ease
    let moveDistance := FP.mul moveDistancePixels (FP.fmin pixelToNDC.x pixelToNDC.y)
    let minMove := FP.mul (FP.fmin pixelToNDC.x pixelToNDC.y) COLLECTION_MIN_SPEED
    let moveDistance := FP.fmax moveDistance minMove
    let moveDistance := FP.fmin moveDistance distToTarget
    let prevPos := p.position
    let p :=
      if FP.gt distToTarget snapThreshold then
        { p with position := add2 p.position (scale2 (safeNormalize2 toTarget) moveDistance) }
      else p
    let newVelocity : Vec2 :=
      ⟨FP.div (FP.sub p.position.x prevPos.x) safeDt,
       FP.div (FP.sub p.position.y prevPos.y) safeDt⟩
    let vel : Vec2 :=
      ⟨FP.add p.velocity.x (FP.mul (FP.sub newVelocity.x p.velocity.x) COLLECTION_VELOCITY_DAMPING),
       FP.add p.velocity.y (FP.mul (FP.sub newVelocity.y p.velocity.y) COLLECTION_VELOCITY_DAMPING)⟩
    ({ p with velocity := vel }, 0)

/-- `calculateChaoticMovement` (`Physics.h`, lines 147–170). -/
def calculateChaoticMovement (p : Particle) (id : ℕ) (params : SimulationParams)
    (safeDt : FP) : Particle :=
  let chaoticMovement := turbulentMotion p.position params.time id
  let chaoticDir := safeNormalize2 chaoticMovement
  let chaoticScale := CHAOTIC_MOVEMENT_SCALE
  let vel : Vec2 :=
    ⟨FP.add p.velocity.x (FP.mul (FP.mul chaoticDir.x chaoticScale) safeDt),
     FP.add p.velocity.y (FP.mul (FP.mul chaoticDir.y chaoticScale) safeDt)⟩
  let speedSq := dot2 vel vel
  let velocityDamping :=
    if FP.gt speedSq (FP.mul CHAOTIC_HIGH_SPEED_THRESHOLD CHAOTIC_HIGH_SPEED_THRESHOLD) then
      CHAOTIC_VELOCITY_DAMPING_HIGH
    else CHAOTIC_VELOCITY_DAMPING_NORMAL
  { p with velocity := scale2 vel velocityDamping }

/-- `calculateStormMovement` (`Physics.h`, lines 175–199). -/
def calculateStormMovement (p : Particle) (id : ℕ) (params : SimulationParams) :
    Particle :=
  let seed := FP.mul (FP.fin (id : ℝ)) (FP.fin 13.7)
  let fieldX := FP.sub (hash (FP.add seed (FP.mul params.time (FP.fin 1.5)))) (FP.fin 0.5)
  let fieldY := FP.sub (hash (FP.add (FP.add seed (FP.mul params.time (FP.fin 2.1)))
    (FP.fin 100))) (FP.fin 0.5)
  let electricForce := scale2 ⟨fieldX, fieldY⟩ STORM_ELECTRIC_FORCE
  let vel := add2 p.velocity (scale2 electricForce STORM_ELECTRIC_DAMPING)
  let baseTurbulence := FP.mul (FP.fsin (FP.add (FP.mul params.time (FP.fin 3)) seed))
    STORM_BASE_TURBULENCE
  let vel := add2 vel ⟨baseTurbulence, FP.mul baseTurbulence (FP.fin 0.7)⟩
  let vel := scale2 vel STORM_VELOCITY_DAMPING
  let electricHue := FP.add (FP.mul (hash seed) TWO_PI) (FP.mul params.time (FP.fin 2))
  let color : Float4 :=
    ⟨FP.add (FP.fin 0.3) (FP.mul (FP.fin 0.7) (FP.fsin electricHue)),
     FP.add (FP.fin 0.4) (FP.mul (FP.fin 0.6) (FP.fsin (FP.add electricHue ELECTRIC_HUE_OFFSET_G))),
     FP.add (FP.fin 0.8) (FP.mul (FP.fin 0.2) (FP.fsin (FP.add electricHue ELECTRIC_HUE_OFFSET_B))),
     FP.add (FP.fin 0.7) (FP.mul (FP.fin 0.3) (FP.fsin (FP.add (FP.mul params.time (FP.fin 3)) seed)))⟩
  { p with velocity := vel, color := color }

/-- `calculateParticleSize` (`Physics.h`, lines 205–228). -/
def calculateParticleSize (p : Particle) (params : SimulationParams) (id : ℕ) : FP :=
  let size :=
    if params.state = SIMULATION_STATE_COLLECTING ∨
       params.state = SIMULATION_STATE_COLLECTED then p.baseSize
    else
      let pulse := FP.add (FP.mul (FP.fsin (FP.add (FP.mul p.life (FP.fin 2))
        (FP.mul (FP.fin (id : ℝ)) (FP.fin 0.01)))) PARTICLE_PULSE_AMPLITUDE) (FP.fin 1)
      FP.mul p.baseSize pulse
  let size := if ¬ isFloatSafe size ∨ FP.lt size (FP.fin 0) then params.minParticleSize
              else size
  FP.fclamp size params.minParticleSize params.maxParticleSize

/-- One axis of the repulsion-zone / hard-edge handling of
`applyBoundaryConditionsForPhysics` (`Physics.h`, lines 258–300; the source
repeats the same statements verbatim for `x` and `y`).  Takes the sanitized
position and the incoming velocity component, returns both updated. -/
def boundaryAxis (pos vel : FP) : FP × FP :=
  let repulsionZoneMin := FP.add NDC_MIN_POS REPULSION_ZONE
  let repulsionZoneMax := FP.sub NDC_MAX_POS REPULSION_ZONE
  let clampMin := FP.add NDC_MIN_POS BOUNDARY_MARGIN
  let clampMax := FP.sub NDC_MAX_POS BOUNDARY_MARGIN
  if FP.lt pos repulsionZoneMin then
    let penetration := FP.sub repulsionZoneMin pos
    let vel := FP.add vel (FP.mul (FP.mul penetration REPULSION_STRENGTH) DEFAULT_DT)
    if FP.le pos NDC_MIN_POS then
      (clampMin,
       if FP.lt vel (FP.fin 0) then FP.mul (FP.neg vel) BOUNDARY_BOUNCE_DAMPING else vel)
    else (pos, vel)
  else if FP.gt pos repulsionZoneMax then
    let penetration := FP.sub pos repulsionZoneMax
    let vel := FP.sub vel (FP.mul (FP.mul penetration REPULSION_STRENGTH) DEFAULT_DT)
    if FP.ge pos NDC_MAX_POS then
      (clampMax,
       if FP.gt vel (FP.fin 0) then FP.mul (FP.neg vel) BOUNDARY_BOUNCE_DAMPING else vel)
    else (pos, vel)
  else (pos, vel)

/-- `applyBoundaryConditionsForPhysics` (`Physics.h`, lines 234–305). -/
def applyBoundaryConditionsForPhysics (p : Particle) (params : SimulationParams) :
    Particle :=
  let px := if ¬ isFloatSafe p.position.x then FP.fin 0 else p.position.x
  let py := if ¬ isFloatSafe p.position.y then FP.fin 0 else p.position.y
  if params.state = SIMULATION_STATE_COLLECTING ∨
     params.state = SIMULATION_STATE_COLLECTED then
    let pos : Vec2 := ⟨FP.fclamp px NDC_MIN_POS NDC_MAX_POS,
                       FP.fclamp py NDC_MIN_POS NDC_MAX_POS⟩
    let vel := if FP.gt (length2 p.velocity) MAX_VELOCITY then
                 scale2 (safeNormalize2 p.velocity) MAX_VELOCITY
               else p.velocity
    { p with position := pos, velocity := vel }
  else
    let rx := boundaryAxis px p.velocity.x
    let ry := boundaryAxis py p.velocity.y
    let vel : Vec2 := ⟨rx.2, ry.2⟩
    let vel := if FP.gt (length2 vel) MAX_VELOCITY then
                 scale2 (safeNormalize2 vel) MAX_VELOCITY
               else vel
    { p with position := ⟨rx.1, ry.1⟩, velocity := vel }

/-- `integrateParticleForPhysics` (`Physics.h`, lines 310–332). -/
def integrateParticleForPhysics (p : Particle) (safeDt : FP) (acceleration : Vec2) :
    Particle :=
  let vel := add2 p.velocity (scale2 acceleration safeDt)
  let speedSq := dot2 vel vel
  let speed := FP.sqrt speedSq
  let vs : Vec2 × FP :=
    if ¬ isFloatSafe speed then ((⟨FP.fin 0, FP.fin 0⟩ : Vec2), FP.fin 0) else (vel, speed)
  let vel := vs.1
  let speed := vs.2
  let vel := if FP.gt speed MAX_VELOCITY then scale2 (safeNormalize2 vel) MAX_VELOCITY
             else vel
  let oldPos := p.position
  let pos := add2 p.position (scale2 vel safeDt)
  let pos : Vec2 :=
    ⟨if ¬ isFloatSafe pos.x then oldPos.x else pos.x,
     if ¬ isFloatSafe pos.y then oldPos.y else pos.y⟩
  { p with velocity := vel, position := pos }

/-- `applyPixelPerfectMode` (`Physics.h`, lines 337–342).  Defined by the
source but never invoked by `updateParticles`. -/
def applyPixelPerfectMode (p : Particle) (pixelSizeMode : ℕ) : Particle :=
  if pixelSizeMode = 1 then
    { p with position := ⟨FP.fround p.position.x, FP.fround p.position.y⟩ }
  else p

/-- The `switch (params[0].state)` dispatch of `updateParticles`
(`Physics.h`, lines 369–390), including the COLLECTED hard-pin case;
`IDLE`, `CHAOTIC` and every other state value share the `default` arm. -/
def dispatchState (p : Particle) (params : SimulationParams) (id : ℕ) (safeDt : FP) :
    Particle × ℕ :=
  if params.state = SIMULATION_STATE_COLLECTING then
    calculateCollectionMovement p params safeDt
  else if params.state = SIMULATION_STATE_COLLECTED then
    ({ p with position := p.targetPosition, velocity := ⟨FP.fin 0, FP.fin 0⟩,
              life := PARTICLE_COLLECTED }, 0)
  else if params.state = SIMULATION_STATE_LIGHTNING_STORM then
    (calculateStormMovement p id params, 0)
  else
    (calculateChaoticMovement p id params safeDt, 0)

/-- The steps shared by every non-pass-through tick after the state dispatch
(`Physics.h`, lines 392–401): integrate, bound, size, life phase advance. -/
def postDispatch (p : Particle) (params : SimulationParams) (id : ℕ) (safeDt : FP) :
    Particle :=
  let p := integrateParticleForPhysics p safeDt ⟨FP.fin 0, FP.fin 0⟩
  let p := applyBoundaryConditionsForPhysics p params
  let p := { p with size := calculateParticleSize p params id }
  if isFloatSafe p.life ∧ FP.ge p.life PARTICLE_ALIVE then
    let l := FP.add p.life safeDt
    { p with life := if FP.gt l TWO_PI then FP.sub l TWO_PI else l }
  else p

/-- The body of the `updateParticles` kernel for one particle
(`Physics.h`, lines 357–404): everything after the thread-id guard.
Returns the written-back particle and the number of collected-counter
increments performed. -/
def updateParticlesBody (p : Particle) (params : SimulationParams) (id : ℕ) :
    Particle × ℕ :=
  let safeDt := safeDeltaTimeForPhysics params.deltaTime
  let isFullyCollected :=
    FP.feq p.life PARTICLE_COLLECTED ∧ params.state = SIMULATION_STATE_COLLECTED
  if isFullyCollected then (p, 0)
  else
    let p := if params.state ≠ SIMULATION_STATE_LIGHTNING_STORM then
               { p with color := p.originalColor }
             else p
    let r := dispatchState p params id safeDt
    (postDispatch r.1 params id safeDt, r.2)

/-- An all-zero particle, standing in for the unspecified contents of
out-of-range buffer slots. -/
def defaultParticle : Particle :=
  ⟨⟨FP.fin 0, FP.fin 0⟩, ⟨FP.fin 0, FP.fin 0⟩, ⟨FP.fin 0, FP.fin 0⟩,
   ⟨FP.fin 0, FP.fin 0, FP.fin 0, FP.fin 0⟩, ⟨FP.fin 0, FP.fin 0, FP.fin 0, FP.fin 0⟩,
   FP.fin 0, FP.fin 0, FP.fin 0, 0⟩

/-- The `updateParticles` kernel (`Physics.h`, lines 348–405) for one thread:
the particle buffer is a list, the atomic collected counter a number, and
`id` the thread position in the grid.  Threads with
`id >= params.particleCount` return before touching either. -/
def updateParticles (particles : List Particle) (params : SimulationParams)
    (collectedCounter : ℕ) (id : ℕ) : List Particle × ℕ :=
  if id ≥ params.particleCount then (particles, collectedCounter)
  else
    let r := updateParticlesBody (particles.getD id defaultParticle) params id
    (particles.set id r.1, collectedCounter + r.2)

/- ============================================================ -/
/- Derived notions used by the statements                       -/
/- ============================================================ -/

/-- `life` is in the alive (phase-accumulator) range:
the source's test `p.life >= PARTICLE_ALIVE`. -/
def aliveLife (l : FP) : Prop := FP.ge l PARTICLE_ALIVE

/-- Both components are finite and the Euclidean magnitude is at most `c`. -/
def speedLE (v : Vec2) (c : ℝ) : Prop :=
  ∃ a b : ℝ, v = ⟨FP.fin a, FP.fin b⟩ ∧ Real.sqrt (a * a + b * b) ≤ c

/-- Both components are finite with magnitude at most `c`. -/
def posLE (v : Vec2) (c : ℝ) : Prop :=
  ∃ a b : ℝ, v = ⟨FP.fin a, FP.fin b⟩ ∧ |a| ≤ c ∧ |b| ≤ c

/-- A sequence of ticks on one particle: the final particle and the total
number of collected-counter increments performed along the way. -/
def runTicks (id : ℕ) : Particle → List SimulationParams → Particle × ℕ
  | p, [] => (p, 0)
  | p, q :: qs =>
      let r := updateParticlesBody p q id
      let rest := runTicks id r.1 qs
      (rest.1, r.2 + rest.2)

/-- A concrete parameter block used by witnesses and counterexamples. -/
def baseParams : SimulationParams :=
  { state := SIMULATION_STATE_IDLE, pixelSizeMode := 0, colorsLocked := 0,
    deltaTime := FP.fin (1/60), collectionSpeed := FP.fin 1,
    brightnessBoost := FP.fin 1, screenSize := ⟨FP.fin 1920, FP.fin 1080⟩,
    minParticleSize := FP.fin 1, maxParticleSize := FP.fin 2, time := FP.fin 0,
    particleCount := 1, idleChaoticMotion := 0 }

/-- A concrete particle used by witnesses and counterexamples. -/
def baseParticle : Particle :=
  { position := ⟨FP.fin 0, FP.fin 0⟩, velocity := ⟨FP.fin 0, FP.fin 0⟩,
    targetPosition := ⟨FP.fin (1/2), FP.fin 0⟩,
    color := ⟨FP.fin 1, FP.fin 1, FP.fin 1, FP.fin 1⟩,
    originalColor := ⟨FP.fin 1, FP.fin 1, FP.fin 1, FP.fin 1⟩,
    size := FP.fin 1, baseSize := FP.fin 1, life := FP.fin 0,
    idleChaoticMotion := 0 }

/-- A concrete COLLECTED-state parameter block with pixel-perfect mode on,
for the pixel-snap counterexample. -/
def c8Params : SimulationParams :=
  ⟨SIMULATION_STATE_COLLECTED, 1, 0, FP.fin (1/60), FP.fin 1, FP.fin 1,
   ⟨FP.fin 1920, FP.fin 1080⟩, FP.fin 1, FP.fin 2, FP.fin 0, 1, 0⟩

/-- A concrete alive particle with a non-integer target, for the pixel-snap
counterexample. -/
def c8Particle : Particle :=
  ⟨⟨FP.fin 0, FP.fin 0⟩, ⟨FP.fin 0, FP.fin 0⟩, ⟨FP.fin (1/2), FP.fin 0⟩,
   ⟨FP.fin 1, FP.fin 1, FP.fin 1, FP.fin 1⟩, ⟨FP.fin 1, FP.fin 1, FP.fin 1, FP.fin 1⟩,
   FP.fin 1, FP.fin 1, FP.fin 0, 0⟩

/-- `c8Particle` after the COLLECTED hard-pin: position at the target,
velocity zero, life collected. -/
def c8Snapped : Particle :=
  ⟨⟨FP.fin (1/2), FP.fin 0⟩, ⟨FP.fin 0, FP.fin 0⟩, ⟨FP.fin (1/2), FP.fin 0⟩,
   ⟨FP.fin 1, FP.fin 1, FP.fin 1, FP.fin 1⟩, ⟨FP.fin 1, FP.fin 1, FP.fin 1, FP.fin 1⟩,
   FP.fin 1, FP.fin 1, FP.fin (-1), 0⟩

end

/-- The coordinate pair of a sample. -/
def sCoords (s : SampleC) : ℤ × ℤ := (s.x, s.y)

/-- The coordinate pairs of a sample list. -/
def coordsOf (l : List SampleC) : List (ℤ × ℤ) := l.map sCoords

/- ============================================================ -/
/- Theorems                                                     -/
/- ============================================================ -/

theorem updateParticlesBody_fullyCollected (p : Particle) (params : SimulationParams)
    (id : ℕ) (hlife : FP.feq p.life PARTICLE_COLLECTED)
    (hstate : params.state = SIMULATION_STATE_COLLECTED) :
    updateParticlesBody p params id = (p, 0) := by
  unfold updateParticlesBody
  exact if_pos ⟨hlife, hstate⟩

/-- C10: a thread whose id is at least `params.particleCount` returns
immediately: the particle buffer and the collected counter are unchanged. -/
theorem claim_C10_thread_guard (particles : List Particle) (params : SimulationParams)
    (ctr id : ℕ) (h : params.particleCount ≤ id) :
    updateParticles particles params ctr id = (particles, ctr) := by
  unfold updateParticles
  exact if_pos h

/-- Witness for C10 at a concrete out-of-range thread id. -/
theorem claim_C10_witness :
    baseParams.particleCount ≤ 5 ∧
      updateParticles [] baseParams 0 5 = ([], 0) :=
  ⟨by norm_num [baseParams],
   claim_C10_thread_guard [] baseParams 0 5 (by norm_num [baseParams])⟩

/-- C4: a particle whose `life` equals the collected sentinel is written back
exactly as read by a tick in the COLLECTED state, with no counter increment. -/
theorem claim_C4_collected_passthrough (p : Particle) (params : SimulationParams)
    (id : ℕ) (hlife : FP.feq p.life PARTICLE_COLLECTED)
    (hstate : params.state = SIMULATION_STATE_COLLECTED) :
    updateParticlesBody p params id = (p, 0) :=
  updateParticlesBody_fullyCollected p params id hlife hstate

/-- Witness for C4 at a concrete collected particle. -/
theorem claim_C4_witness :
    FP.feq ({ baseParticle with life := FP.fin (-1) } : Particle).life PARTICLE_COLLECTED ∧
      updateParticlesBody { baseParticle with life := FP.fin (-1) }
        { baseParams with state := SIMULATION_STATE_COLLECTED } 0
        = ({ baseParticle with life := FP.fin (-1) }, 0) :=
  ⟨by simp [baseParticle, PARTICLE_COLLECTED, FP.feq],
   claim_C4_collected_passthrough _ _ 0
     (by simp [baseParticle, PARTICLE_COLLECTED, FP.feq]) rfl⟩

/-- C1 counterexample: in the fully-collected pass-through (life equal to the
collected sentinel, state COLLECTED) an incoming NaN position component is
stored back verbatim, so not every stored component is safe. -/
theorem claim_C1_counterexample :
    ¬ isFloatSafe ((updateParticlesBody
      { baseParticle with life := FP.fin (-1), position := ⟨FP.nan, FP.fin 0⟩ }
      { baseParams with state := SIMULATION_STATE_COLLECTED } 0).1.position.x) := by
  rw [updateParticlesBody_fullyCollected _ _ 0
    (by simp [baseParticle, PARTICLE_COLLECTED, FP.feq]) rfl]
  simp [isFloatSafe, FP.isfinite]

/-- C3 counterexample: in the fully-collected pass-through an incoming
velocity of speed 100 is stored back verbatim, exceeding MAX_VELOCITY. -/
theorem claim_C3_counterexample :
    (updateParticlesBody
      { baseParticle with life := FP.fin (-1), velocity := ⟨FP.fin 100, FP.fin 0⟩ }
      { baseParams with state := SIMULATION_STATE_COLLECTED } 0).1.velocity
      = ⟨FP.fin 100, FP.fin 0⟩ ∧
    ¬ speedLE ⟨FP.fin 100, FP.fin 0⟩ MAX_VELOCITY_R := by
  constructor
  · rw [updateParticlesBody_fullyCollected _ _ 0
      (by simp [baseParticle, PARTICLE_COLLECTED, FP.feq]) rfl]
  · rintro ⟨a, b, hab, hle⟩
    have hx : FP.fin (100 : ℝ) = FP.fin a := congrArg Vec2.x hab
    have hy : FP.fin (0 : ℝ) = FP.fin b := congrArg Vec2.y hab
    rw [FP.fin.injEq] at hx hy
    rw [← hx, ← hy] at hle
    have h1 : Real.sqrt ((100 : ℝ) * 100 + 0 * 0) = 100 := by
      rw [show (100 : ℝ) * 100 + 0 * 0 = 100 ^ 2 by norm_num]
      exact Real.sqrt_sq (by norm_num)
    rw [h1] at hle
    norm_num [MAX_VELOCITY_R] at hle

/-- C9: any guarded invalid argument (null pointer, non-positive count,
target, band count or image height) makes `stratifiedSampleC` a silent
no-op: the output buffer is returned exactly as supplied. -/
theorem claim_C9_invalid_noop (samples : Option (List SampleC))
    (sampleCount targetCount imageHeight bands : ℤ) (out : Option (List SampleC))
    (h : samples = none ∨ sampleCount ≤ 0 ∨ targetCount ≤ 0 ∨ out = none ∨
      bands ≤ 0 ∨ imageHeight ≤ 0) :
    stratifiedSampleC samples sampleCount targetCount imageHeight bands out = out := by
  unfold stratifiedSampleC
  split_ifs with h1 h2
  · rfl
  · rfl
  · exfalso
    simp only [Option.isNone_iff_eq_none, not_or] at h1 h2
    tauto

/-- Witness for C9 at a concrete call with `bands = 0`. -/
theorem claim_C9_witness :
    (0 : ℤ) ≤ 0 ∧
      stratifiedSampleC (some [⟨0, 0, 1, 1, 1, 1⟩]) 1 1 1 0 (some []) = some [] :=
  ⟨le_refl 0,
   claim_C9_invalid_noop _ 1 1 1 0 _ (by norm_num)⟩

/- Numeric-safety lemma chain for the physics kernel. -/

open scoped Classical

theorem FP.lt_fin_fin {x y : ℝ} : FP.lt (FP.fin x) (FP.fin y) ↔ x < y := Iff.rfl

theorem FP.le_fin_fin {x y : ℝ} : FP.le (FP.fin x) (FP.fin y) ↔ x ≤ y := Iff.rfl

theorem safeDeltaTime_fin (dt : FP) :
    ∃ d : ℝ, safeDeltaTimeForPhysics dt = FP.fin d ∧ 0 < d ∧ d < 1 := by
  unfold safeDeltaTimeForPhysics
  split_ifs with h
  · obtain ⟨hfin, hgt, hlt⟩ := h
    cases dt with
    | fin x =>
        refine ⟨x, rfl, ?_, ?_⟩
        · have := hgt
          simp only [FP.gt, MIN_DT, FP.lt_fin_fin] at this
          linarith
        · have := hlt
          simp only [MAX_DT, FP.lt_fin_fin] at this
          linarith
    | inf => exact absurd hfin (by simp [FP.isfinite])
    | ninf => exact absurd hfin (by simp [FP.isfinite])
    | nan => exact absurd hfin (by simp [FP.isfinite])
  · exact ⟨1/60, rfl, by norm_num, by norm_num⟩

theorem sqrt_safe_inv {w : FP} (h : isFloatSafe (FP.sqrt w)) :
    ∃ q : ℝ, w = FP.fin q ∧ 0 ≤ q ∧ FP.sqrt w = FP.fin (Real.sqrt q) := by
  cases w with
  | fin q =>
      by_cases hq : q < 0
      · exact absurd h (by simp [FP.sqrt, hq, isFloatSafe, FP.isfinite])
      · exact ⟨q, rfl, not_lt.mp hq, by simp [FP.sqrt, hq]⟩
  | inf => exact absurd h (by simp [FP.sqrt, isFloatSafe, FP.isfinite])
  | ninf => exact absurd h (by simp [FP.sqrt, isFloatSafe, FP.isfinite])
  | nan => exact absurd h (by simp [FP.sqrt, isFloatSafe, FP.isfinite])

theorem dot2_self_fin {v : Vec2} {q : ℝ} (h : dot2 v v = FP.fin q) :
    ∃ a b : ℝ, v = ⟨FP.fin a, FP.fin b⟩ ∧ q = a * a + b * b := by
  obtain ⟨vx, vy⟩ := v
  cases vx with
  | fin a =>
      cases vy with
      | fin b =>
          refine ⟨a, b, rfl, ?_⟩
          simp only [dot2, FP.mul, FP.add, FP.fin.injEq] at h
          exact h.symm
      | inf => simp [dot2, FP.mul, FP.add] at h
      | ninf => simp [dot2, FP.mul, FP.add] at h
      | nan => simp [dot2, FP.mul, FP.add] at h
  | inf => cases vy <;> simp [dot2, FP.mul, FP.add] at h
  | ninf => cases vy <;> simp [dot2, FP.mul, FP.add] at h
  | nan => cases vy <;> simp [dot2, FP.mul, FP.add] at h

theorem length2_fin (a b : ℝ) :
    length2 ⟨FP.fin a, FP.fin b⟩ = FP.fin (Real.sqrt (a * a + b * b)) := by
  have h : ¬ (a * a + b * b < 0) :=
    not_lt.mpr (add_nonneg (mul_self_nonneg a) (mul_self_nonneg b))
  simp [length2, dot2, FP.mul, FP.add, FP.sqrt, h]

theorem scaled_normalize_speedLE (a b : ℝ) (h : 15 < Real.sqrt (a * a + b * b)) :
    speedLE (scale2 (safeNormalize2 ⟨FP.fin a, FP.fin b⟩) MAX_VELOCITY)
      MAX_VELOCITY_R := by
  have hs0 : 0 < Real.sqrt (a * a + b * b) := lt_trans (by norm_num) h
  have hS : (0 : ℝ) ≤ a * a + b * b := add_nonneg (mul_self_nonneg a) (mul_self_nonneg b)
  have hs2 : Real.sqrt (a * a + b * b) * Real.sqrt (a * a + b * b) = a * a + b * b :=
    Real.mul_self_sqrt hS
  have hSpos : 0 < a * a + b * b := by nlinarith [hs2, h, hs0]
  have hnorm : safeNormalize2 ⟨FP.fin a, FP.fin b⟩ =
      ⟨FP.fin (a / Real.sqrt (a * a + b * b)), FP.fin (b / Real.sqrt (a * a + b * b))⟩ := by
    unfold safeNormalize2
    rw [length2_fin]
    rw [if_pos (show FP.gt (FP.fin (Real.sqrt (a * a + b * b))) MIN_VECTOR_LENGTH by
      simp only [FP.gt, MIN_VECTOR_LENGTH, FP.lt_fin_fin]
      linarith)]
    simp [FP.div, hs0.ne']
  rw [hnorm]
  refine ⟨a / Real.sqrt (a * a + b * b) * 15, b / Real.sqrt (a * a + b * b) * 15,
    by simp [scale2, FP.mul, MAX_VELOCITY], ?_⟩
  have hinner : a / Real.sqrt (a * a + b * b) * 15 * (a / Real.sqrt (a * a + b * b) * 15) +
      b / Real.sqrt (a * a + b * b) * 15 * (b / Real.sqrt (a * a + b * b) * 15) = 225 := by
    have h1 : a / Real.sqrt (a * a + b * b) * 15 * (a / Real.sqrt (a * a + b * b) * 15) +
        b / Real.sqrt (a * a + b * b) * 15 * (b / Real.sqrt (a * a + b * b) * 15) =
        225 * (a * a + b * b) /
          (Real.sqrt (a * a + b * b) * Real.sqrt (a * a + b * b)) := by
      field_simp
      ring
    rw [h1, hs2, mul_div_assoc, div_self hSpos.ne', mul_one]
  rw [hinner, show (225 : ℝ) = 15 ^ 2 by norm_num,
    Real.sqrt_sq (by norm_num : (0 : ℝ) ≤ 15)]
  norm_num [MAX_VELOCITY_R]

theorem clampBranch_speedLE (a b : ℝ) :
    speedLE (if FP.gt (length2 ⟨FP.fin a, FP.fin b⟩) MAX_VELOCITY
             then scale2 (safeNormalize2 ⟨FP.fin a, FP.fin b⟩) MAX_VELOCITY
             else ⟨FP.fin a, FP.fin b⟩) MAX_VELOCITY_R := by
  rw [length2_fin]
  split_ifs with h
  · refine scaled_normalize_speedLE a b ?_
    simpa only [FP.gt, MAX_VELOCITY, FP.lt_fin_fin] using h
  · refine ⟨a, b, rfl, ?_⟩
    have := h
    simp only [FP.gt, MAX_VELOCITY, FP.lt_fin_fin, not_lt] at this
    simpa [MAX_VELOCITY_R] using this

theorem integrate_speedLE (p : Particle) (d : ℝ) :
    speedLE (integrateParticleForPhysics p (FP.fin d) ⟨FP.fin 0, FP.fin 0⟩).velocity
      MAX_VELOCITY_R := by
  simp only [integrateParticleForPhysics]
  by_cases h : isFloatSafe (FP.sqrt (dot2
      (add2 p.velocity (scale2 ⟨FP.fin 0, FP.fin 0⟩ (FP.fin d)))
      (add2 p.velocity (scale2 ⟨FP.fin 0, FP.fin 0⟩ (FP.fin d)))))
  · obtain ⟨q, hq, hq0, hsq⟩ := sqrt_safe_inv h
    obtain ⟨a, b, hab, hqab⟩ := dot2_self_fin hq
    rw [hab] at h hsq ⊢
    rw [if_neg (not_not_intro h)]
    dsimp only
    rw [hsq]
    split_ifs with hgt
    · refine scaled_normalize_speedLE a b ?_
      have := hgt
      simp only [FP.gt, MAX_VELOCITY, FP.lt_fin_fin] at this
      rw [hqab] at this
      linarith
    · refine ⟨a, b, rfl, ?_⟩
      have := hgt
      simp only [FP.gt, MAX_VELOCITY, FP.lt_fin_fin, not_lt] at this
      rw [hqab] at this
      simpa [MAX_VELOCITY_R] using this
  · rw [if_pos h]
    dsimp only
    have hz : ¬ FP.gt (FP.fin 0) MAX_VELOCITY := by
      simp [FP.gt, MAX_VELOCITY, FP.lt_fin_fin]
    rw [if_neg hz]
    refine ⟨0, 0, rfl, ?_⟩
    rw [show (0 : ℝ) * 0 + 0 * 0 = 0 by norm_num, Real.sqrt_zero]
    norm_num [MAX_VELOCITY_R]

theorem sanitize_fin (v : FP) :
    ∃ x : ℝ, (if ¬ isFloatSafe v then FP.fin 0 else v) = FP.fin x := by
  split_ifs with h
  · cases v with
    | fin x => exact ⟨x, rfl⟩
    | inf => exact absurd h (by simp [isFloatSafe, FP.isfinite])
    | ninf => exact absurd h (by simp [isFloatSafe, FP.isfinite])
    | nan => exact absurd h (by simp [isFloatSafe, FP.isfinite])
  · exact ⟨0, rfl⟩

theorem FP.fmax_fin (x y : ℝ) :
    FP.fmax (FP.fin x) (FP.fin y) = FP.fin (if x < y then y else x) := by
  unfold FP.fmax
  simp only [FP.lt_fin_fin]
  split_ifs <;> rfl

theorem FP.fmin_fin (x y : ℝ) :
    FP.fmin (FP.fin x) (FP.fin y) = FP.fin (if y < x then y else x) := by
  unfold FP.fmin
  simp only [FP.lt_fin_fin]
  split_ifs <;> rfl

theorem fclamp_unit (x : ℝ) :
    ∃ y : ℝ, FP.fclamp (FP.fin x) NDC_MIN_POS NDC_MAX_POS = FP.fin y ∧ |y| ≤ 1 := by
  unfold FP.fclamp
  simp only [NDC_MIN_POS, NDC_MAX_POS, FP.fmax_fin, FP.fmin_fin]
  refine ⟨_, rfl, ?_⟩
  rw [abs_le]
  constructor <;> split_ifs <;> linarith

theorem boundaryAxis_safe (x va : ℝ) :
    ∃ x' v' : ℝ, boundaryAxis (FP.fin x) (FP.fin va) = (FP.fin x', FP.fin v') ∧
      |x'| ≤ 1 := by
  unfold boundaryAxis
  simp only [NDC_MIN_POS, NDC_MAX_POS, REPULSION_ZONE, BOUNDARY_MARGIN,
    REPULSION_STRENGTH, BOUNDARY_BOUNCE_DAMPING, DEFAULT_DT,
    FP.sub, FP.add, FP.neg, FP.mul, FP.gt, FP.ge, FP.lt_fin_fin, FP.le_fin_fin]
  split_ifs with h1 h2 h3 h4 h5 h6
  all_goals refine ⟨_, _, rfl, ?_⟩
  all_goals rw [abs_le]
  all_goals constructor <;> linarith

theorem boundary_safe (p : Particle) (params : SimulationParams) (a b : ℝ)
    (hv : p.velocity = ⟨FP.fin a, FP.fin b⟩) :
    posLE (applyBoundaryConditionsForPhysics p params).position 1 ∧
      speedLE (applyBoundaryConditionsForPhysics p params).velocity MAX_VELOCITY_R := by
  obtain ⟨x, hx⟩ := sanitize_fin p.position.x
  obtain ⟨y, hy⟩ := sanitize_fin p.position.y
  simp only [applyBoundaryConditionsForPhysics]
  rw [hx, hy, hv]
  by_cases hstate : params.state = SIMULATION_STATE_COLLECTING ∨
      params.state = SIMULATION_STATE_COLLECTED
  · rw [if_pos hstate]
    obtain ⟨xc, hxc, hxb⟩ := fclamp_unit x
    obtain ⟨yc, hyc, hyb⟩ := fclamp_unit y
    constructor
    · dsimp only
      exact ⟨xc, yc, by rw [hxc, hyc], hxb, hyb⟩
    · dsimp only
      exact clampBranch_speedLE a b
  · rw [if_neg hstate]
    dsimp only
    obtain ⟨x', vx', hax, hxb⟩ := boundaryAxis_safe x a
    obtain ⟨y', vy', hay, hyb⟩ := boundaryAxis_safe y b
    rw [hax, hay]
    dsimp only
    constructor
    · exact ⟨x', y', rfl, hxb, hyb⟩
    · exact clampBranch_speedLE vx' vy'

theorem postDispatch_pos_vel (p : Particle) (params : SimulationParams) (id : ℕ)
    (dt : FP) :
    (postDispatch p params id dt).position =
      (applyBoundaryConditionsForPhysics
        (integrateParticleForPhysics p dt ⟨FP.fin 0, FP.fin 0⟩) params).position ∧
    (postDispatch p params id dt).velocity =
      (applyBoundaryConditionsForPhysics
        (integrateParticleForPhysics p dt ⟨FP.fin 0, FP.fin 0⟩) params).velocity := by
  simp only [postDispatch]
  split_ifs <;> exact ⟨rfl, rfl⟩

theorem speedLE_components {v : Vec2} {c : ℝ} (h : speedLE v c) :
    ∃ a b : ℝ, v = ⟨FP.fin a, FP.fin b⟩ ∧ |a| ≤ c ∧ |b| ≤ c := by
  obtain ⟨a, b, rfl, hs⟩ := h
  have ha : |a| ≤ c := by
    rw [← Real.sqrt_mul_self_eq_abs a]
    exact le_trans (Real.sqrt_le_sqrt (by nlinarith [mul_self_nonneg b])) hs
  have hb : |b| ≤ c := by
    rw [← Real.sqrt_mul_self_eq_abs b]
    exact le_trans (Real.sqrt_le_sqrt (by nlinarith [mul_self_nonneg a])) hs
  exact ⟨a, b, rfl, ha, hb⟩

theorem isFloatSafe_of_abs_le {x c : ℝ} (h : |x| ≤ c) (hc : c < MAX_FLOAT_VALUE) :
    isFloatSafe (FP.fin x) := by
  refine ⟨trivial, ?_⟩
  simp only [FP.abs, FP.lt_fin_fin]
  linarith

theorem updateParticlesBody_safe (p : Particle) (params : SimulationParams) (id : ℕ)
    (h : ¬ (FP.feq p.life PARTICLE_COLLECTED ∧
        params.state = SIMULATION_STATE_COLLECTED)) :
    posLE (updateParticlesBody p params id).1.position 1 ∧
      speedLE (updateParticlesBody p params id).1.velocity MAX_VELOCITY_R := by
  simp only [updateParticlesBody]
  rw [if_neg h]
  dsimp only
  obtain ⟨d, hd, hd0, hd1⟩ := safeDeltaTime_fin params.deltaTime
  rw [hd]
  obtain ⟨hpos_eq, hvel_eq⟩ := postDispatch_pos_vel
    (dispatchState
      (if params.state ≠ SIMULATION_STATE_LIGHTNING_STORM then
        { p with color := p.originalColor } else p) params id (FP.fin d)).1
    params id (FP.fin d)
  rw [hpos_eq, hvel_eq]
  obtain ⟨a, b, hab, -⟩ := integrate_speedLE
    (dispatchState
      (if params.state ≠ SIMULATION_STATE_LIGHTNING_STORM then
        { p with color := p.originalColor } else p) params id (FP.fin d)).1 d
  exact boundary_safe _ params a b hab

/-- C1 (amended): on every tick that is not the fully-collected pass-through,
every stored position and velocity component is finite with magnitude below
`MAX_FLOAT_VALUE`, whatever the incoming particle and parameters (including
NaN or infinite positions, velocities and deltaTime). -/
theorem claim_C1_numeric_safety (p : Particle) (params : SimulationParams) (id : ℕ)
    (h : ¬ (FP.feq p.life PARTICLE_COLLECTED ∧
        params.state = SIMULATION_STATE_COLLECTED)) :
    isFloatSafe (updateParticlesBody p params id).1.position.x ∧
    isFloatSafe (updateParticlesBody p params id).1.position.y ∧
    isFloatSafe (updateParticlesBody p params id).1.velocity.x ∧
    isFloatSafe (updateParticlesBody p params id).1.velocity.y := by
  obtain ⟨hpos, hvel⟩ := updateParticlesBody_safe p params id h
  obtain ⟨px, py, hp, hpx, hpy⟩ := hpos
  obtain ⟨va, vb, hv, hva, hvb⟩ := speedLE_components hvel
  rw [hp, hv]
  have h30 : (1 : ℝ) < MAX_FLOAT_VALUE := by norm_num [MAX_FLOAT_VALUE]
  have h30' : MAX_VELOCITY_R < MAX_FLOAT_VALUE := by
    norm_num [MAX_FLOAT_VALUE, MAX_VELOCITY_R]
  exact ⟨isFloatSafe_of_abs_le hpx h30, isFloatSafe_of_abs_le hpy h30,
    isFloatSafe_of_abs_le hva h30', isFloatSafe_of_abs_le hvb h30'⟩

/-- Witness for the amended C1 at a concrete non-pass-through tick. -/
theorem claim_C1_witness :
    ¬ (FP.feq baseParticle.life PARTICLE_COLLECTED ∧
        baseParams.state = SIMULATION_STATE_COLLECTED) ∧
    isFloatSafe (updateParticlesBody baseParticle baseParams 0).1.position.x :=
  ⟨by simp [baseParams, SIMULATION_STATE_IDLE, SIMULATION_STATE_COLLECTED],
   (claim_C1_numeric_safety baseParticle baseParams 0
     (by simp [baseParams, SIMULATION_STATE_IDLE, SIMULATION_STATE_COLLECTED])).1⟩

/-- C3 (amended): on every tick that is not the fully-collected pass-through,
the stored velocity has finite components and Euclidean magnitude at most
`MAX_VELOCITY`, for every state and parameter block. -/
theorem claim_C3_speed_clamped (p : Particle) (params : SimulationParams) (id : ℕ)
    (h : ¬ (FP.feq p.life PARTICLE_COLLECTED ∧
        params.state = SIMULATION_STATE_COLLECTED)) :
    speedLE (updateParticlesBody p params id).1.velocity MAX_VELOCITY_R :=
  (updateParticlesBody_safe p params id h).2

/-- Witness for the amended C3 at a concrete non-pass-through tick. -/
theorem claim_C3_witness :
    ¬ (FP.feq baseParticle.life PARTICLE_COLLECTED ∧
        baseParams.state = SIMULATION_STATE_COLLECTED) ∧
    speedLE (updateParticlesBody baseParticle baseParams 0).1.velocity MAX_VELOCITY_R :=
  ⟨by simp [baseParams, SIMULATION_STATE_IDLE, SIMULATION_STATE_COLLECTED],
   claim_C3_speed_clamped baseParticle baseParams 0
     (by simp [baseParams, SIMULATION_STATE_IDLE, SIMULATION_STATE_COLLECTED])⟩

/- Collected-counter lemma chain. -/

theorem aliveLife_ne_collected (l : FP) (h : aliveLife l) : l ≠ PARTICLE_COLLECTED := by
  intro he
  rw [he] at h
  norm_num [aliveLife, FP.ge, PARTICLE_ALIVE, PARTICLE_COLLECTED, FP.le_fin_fin] at h

theorem collection_alive_cases (p : Particle) (params : SimulationParams) (dt : FP)
    (h : aliveLife p.life) :
    ((calculateCollectionMovement p params dt).2 = 1 ∧
      (calculateCollectionMovement p params dt).1.life = PARTICLE_COLLECTED) ∨
    ((calculateCollectionMovement p params dt).2 = 0 ∧
      (calculateCollectionMovement p params dt).1.life = p.life) := by
  simp only [calculateCollectionMovement]
  split_ifs with h1 h2 <;>
    first
      | exact Or.inl ⟨rfl, rfl⟩
      | exact absurd h h2
      | exact Or.inr ⟨rfl, rfl⟩

theorem collection_collected_cases (p : Particle) (params : SimulationParams) (dt : FP)
    (h : p.life = PARTICLE_COLLECTED) :
    (calculateCollectionMovement p params dt).2 = 0 ∧
      (calculateCollectionMovement p params dt).1.life = p.life := by
  simp only [calculateCollectionMovement]
  split_ifs with h1 h2 <;>
    first
      | exact absurd h (aliveLife_ne_collected p.life (show aliveLife p.life from h2))
      | exact ⟨rfl, rfl⟩

theorem integrate_life (p : Particle) (dt : FP) (acc : Vec2) :
    (integrateParticleForPhysics p dt acc).life = p.life := rfl

theorem boundary_life (p : Particle) (params : SimulationParams) :
    (applyBoundaryConditionsForPhysics p params).life = p.life := by
  simp only [applyBoundaryConditionsForPhysics]
  split_ifs <;> rfl

theorem isFloatSafe_fin {v : FP} (h : isFloatSafe v) : ∃ x : ℝ, v = FP.fin x := by
  cases v with
  | fin x => exact ⟨x, rfl⟩
  | inf => exact absurd h (by simp [isFloatSafe, FP.isfinite])
  | ninf => exact absurd h (by simp [isFloatSafe, FP.isfinite])
  | nan => exact absurd h (by simp [isFloatSafe, FP.isfinite])

theorem postDispatch_life (p : Particle) (params : SimulationParams) (id : ℕ)
    (d : ℝ) (hd : 0 < d) :
    (aliveLife p.life → aliveLife (postDispatch p params id (FP.fin d)).life) ∧
    (p.life = PARTICLE_COLLECTED →
      (postDispatch p params id (FP.fin d)).life = PARTICLE_COLLECTED) := by
  simp only [postDispatch]
  have hlife : (applyBoundaryConditionsForPhysics
      (integrateParticleForPhysics p (FP.fin d) ⟨FP.fin 0, FP.fin 0⟩) params).life =
      p.life := by
    rw [boundary_life, integrate_life]
  constructor
  · intro halive
    split_ifs with hcond hw
    · try dsimp only at hcond hw ⊢
      rw [hlife] at hcond
      try rw [hlife] at hw
      try rw [hlife]
      obtain ⟨hsafe, hge⟩ := hcond
      obtain ⟨x, hl⟩ := isFloatSafe_fin hsafe
      rw [hl] at hge
      try rw [hl] at hw
      try rw [hl]
      have hx : (0 : ℝ) ≤ x := by
        simpa [FP.ge, PARTICLE_ALIVE, FP.le_fin_fin] using hge
      have hw' : (6.2831853 : ℝ) < x + d := by
        simpa [FP.gt, FP.add, TWO_PI, FP.lt_fin_fin] using hw
      simp only [aliveLife, FP.ge, PARTICLE_ALIVE, FP.sub, FP.add, FP.neg,
        TWO_PI, FP.le_fin_fin]
      linarith
    · try dsimp only at hcond hw ⊢
      rw [hlife] at hcond
      try rw [hlife]
      obtain ⟨hsafe, hge⟩ := hcond
      obtain ⟨x, hl⟩ := isFloatSafe_fin hsafe
      rw [hl] at hge
      try rw [hl]
      have hx : (0 : ℝ) ≤ x := by
        simpa [FP.ge, PARTICLE_ALIVE, FP.le_fin_fin] using hge
      simp only [aliveLife, FP.ge, PARTICLE_ALIVE, FP.add, FP.le_fin_fin]
      linarith
    · try dsimp only
      rw [hlife]
      exact halive
  · intro hcol
    split_ifs with hcond hw
    · exfalso
      try dsimp only at hcond
      rw [hlife, hcol] at hcond
      norm_num [isFloatSafe, FP.isfinite, FP.abs, FP.lt_fin_fin, FP.ge,
        PARTICLE_ALIVE, PARTICLE_COLLECTED, FP.le_fin_fin] at hcond
    · exfalso
      try dsimp only at hcond
      rw [hlife, hcol] at hcond
      norm_num [isFloatSafe, FP.isfinite, FP.abs, FP.lt_fin_fin, FP.ge,
        PARTICLE_ALIVE, PARTICLE_COLLECTED, FP.le_fin_fin] at hcond
    · try dsimp only
      rw [hlife]
      exact hcol

theorem body_collecting (p : Particle) (params : SimulationParams) (id : ℕ)
    (hst : params.state = SIMULATION_STATE_COLLECTING) :
    (aliveLife p.life →
      ((updateParticlesBody p params id).2 = 1 ∧
        (updateParticlesBody p params id).1.life = PARTICLE_COLLECTED) ∨
      ((updateParticlesBody p params id).2 = 0 ∧
        aliveLife (updateParticlesBody p params id).1.life)) ∧
    (p.life = PARTICLE_COLLECTED →
      (updateParticlesBody p params id).2 = 0 ∧
        (updateParticlesBody p params id).1.life = PARTICLE_COLLECTED) := by
  obtain ⟨d, hd, hd0, -⟩ := safeDeltaTime_fin params.deltaTime
  have hnotfull : ¬ (FP.feq p.life PARTICLE_COLLECTED ∧
      params.state = SIMULATION_STATE_COLLECTED) := by
    rintro ⟨-, hc⟩
    rw [hst] at hc
    norm_num [SIMULATION_STATE_COLLECTING, SIMULATION_STATE_COLLECTED] at hc
  have hcolor : (if params.state ≠ SIMULATION_STATE_LIGHTNING_STORM then
      { p with color := p.originalColor } else p) = { p with color := p.originalColor } := by
    rw [if_pos]
    rw [hst]
    norm_num [SIMULATION_STATE_COLLECTING, SIMULATION_STATE_LIGHTNING_STORM]
  simp only [updateParticlesBody]
  rw [if_neg hnotfull, hd, hcolor]
  simp only [dispatchState]
  rw [if_pos hst]
  have hfl : ({ p with color := p.originalColor } : Particle).life = p.life := rfl
  constructor
  · intro halive
    rcases collection_alive_cases { p with color := p.originalColor } params (FP.fin d)
        (hfl ▸ halive) with ⟨hi, hl⟩ | ⟨hi, hl⟩
    · exact Or.inl ⟨hi,
        (postDispatch_life _ params id d hd0).2 hl⟩
    · refine Or.inr ⟨hi, ?_⟩
      refine (postDispatch_life _ params id d hd0).1 ?_
      rw [hl, hfl]
      exact halive
  · intro hcol
    obtain ⟨hi, hl⟩ := collection_collected_cases { p with color := p.originalColor }
      params (FP.fin d) (hfl.trans hcol)
    exact ⟨hi, (postDispatch_life _ params id d hd0).2 (hl.trans (hfl.trans hcol))⟩

theorem runTicks_collected (id : ℕ) (qs : List SimulationParams) :
    ∀ p : Particle, p.life = PARTICLE_COLLECTED →
      (∀ q ∈ qs, q.state = SIMULATION_STATE_COLLECTING) →
      (runTicks id p qs).2 = 0 ∧ (runTicks id p qs).1.life = PARTICLE_COLLECTED := by
  induction qs with
  | nil => exact fun p hc _ => ⟨rfl, hc⟩
  | cons q qs ih =>
      intro p hc hq
      simp only [runTicks]
      obtain ⟨hi, hl⟩ := (body_collecting p q id (hq q (List.mem_cons_self q qs))).2 hc
      obtain ⟨hi2, hl2⟩ := ih (updateParticlesBody p q id).1 hl
        (fun r hr => hq r (List.mem_cons_of_mem q hr))
      exact ⟨by simp [hi, hi2], hl2⟩

/-- C2: across any sequence of COLLECTING ticks, a particle that starts alive
contributes at most one collected-counter increment, and exactly one
precisely when it ends collected — so the increment happens once at the
first snapping tick and never again. -/
theorem claim_C2_collected_once (id : ℕ) (qs : List SimulationParams) :
    ∀ p : Particle, aliveLife p.life →
      (∀ q ∈ qs, q.state = SIMULATION_STATE_COLLECTING) →
      (runTicks id p qs).2 ≤ 1 ∧
        ((runTicks id p qs).2 = 1 ↔ (runTicks id p qs).1.life = PARTICLE_COLLECTED) := by
  induction qs with
  | nil =>
      intro p halive _
      simp only [runTicks]
      refine ⟨by norm_num, ?_, ?_⟩
      · intro h01
        exact absurd h01 (by norm_num)
      · intro hcl
        exact absurd hcl (aliveLife_ne_collected p.life halive)
  | cons q qs ih =>
      intro p halive hq
      have hq0 : q.state = SIMULATION_STATE_COLLECTING := hq q (List.mem_cons_self q qs)
      have hqrest : ∀ r ∈ qs, r.state = SIMULATION_STATE_COLLECTING :=
        fun r hr => hq r (List.mem_cons_of_mem q hr)
      simp only [runTicks]
      rcases (body_collecting p q id hq0).1 halive with ⟨hi, hl⟩ | ⟨hi, hl⟩
      · obtain ⟨hr0, hrl⟩ := runTicks_collected id qs (updateParticlesBody p q id).1 hl hqrest
        rw [hi, hr0]
        exact ⟨by norm_num, by simp [hrl]⟩
      · obtain ⟨hb, hiff⟩ := ih (updateParticlesBody p q id).1 hl hqrest
        rw [hi]
        simpa using ⟨hb, hiff⟩

/- Concrete COLLECTED-tick evaluation, used by the pixel-snap counterexample. -/

theorem c8_integrate_eval :
    integrateParticleForPhysics c8Snapped (FP.fin (1/60)) ⟨FP.fin 0, FP.fin 0⟩ =
      c8Snapped := by
  norm_num [c8Snapped, integrateParticleForPhysics, add2, scale2, dot2,
    FP.add, FP.mul, FP.sqrt, FP.gt, FP.lt, FP.abs, FP.isfinite, isFloatSafe,
    MAX_VELOCITY, MAX_FLOAT_VALUE, Real.sqrt_zero, abs_of_nonneg]

theorem c8_boundary_eval :
    applyBoundaryConditionsForPhysics c8Snapped c8Params = c8Snapped := by
  norm_num [c8Snapped, c8Params, applyBoundaryConditionsForPhysics, length2, dot2,
    FP.add, FP.mul, FP.sqrt, FP.gt, FP.lt, FP.le, FP.abs, FP.isfinite, isFloatSafe,
    FP.fclamp, FP.fmin, FP.fmax, MAX_VELOCITY, MAX_FLOAT_VALUE,
    NDC_MIN_POS, NDC_MAX_POS, SIMULATION_STATE_COLLECTING, SIMULATION_STATE_COLLECTED,
    Real.sqrt_zero, abs_of_nonneg]

theorem c8_size_eval : calculateParticleSize c8Snapped c8Params 0 = FP.fin 1 := by
  norm_num [c8Snapped, c8Params, calculateParticleSize, SIMULATION_STATE_COLLECTING,
    SIMULATION_STATE_COLLECTED, FP.fclamp, FP.fmin, FP.fmax, FP.lt, FP.abs,
    FP.isfinite, isFloatSafe, MAX_FLOAT_VALUE, abs_of_nonneg]

theorem c8_post_eval : postDispatch c8Snapped c8Params 0 (FP.fin (1/60)) = c8Snapped := by
  have hupd : ({ c8Snapped with size := FP.fin 1 } : Particle) = c8Snapped := rfl
  simp only [postDispatch, c8_integrate_eval, c8_boundary_eval, c8_size_eval, hupd]
  rw [if_neg]
  rintro ⟨-, hge⟩
  have hge' : FP.le PARTICLE_ALIVE (FP.fin (-1)) := hge
  norm_num [PARTICLE_ALIVE, FP.le_fin_fin] at hge'

theorem c8_body_eval :
    updateParticlesBody c8Particle c8Params 0 = (c8Snapped, 0) := by
  have hdt : safeDeltaTimeForPhysics c8Params.deltaTime = FP.fin (1/60) := by
    norm_num [c8Params, safeDeltaTimeForPhysics, FP.isfinite, FP.gt, FP.lt,
      MIN_DT, MAX_DT]
  have hcr : (if c8Params.state ≠ SIMULATION_STATE_LIGHTNING_STORM then
      { c8Particle with color := c8Particle.originalColor } else c8Particle) =
      c8Particle := by
    rw [if_pos (by norm_num [c8Params, SIMULATION_STATE_COLLECTED,
      SIMULATION_STATE_LIGHTNING_STORM])]
    rfl
  have hdisp : dispatchState c8Particle c8Params 0 (FP.fin (1/60)) = (c8Snapped, 0) := by
    simp only [dispatchState]
    rw [if_neg (by norm_num [c8Params, SIMULATION_STATE_COLLECTED,
        SIMULATION_STATE_COLLECTING]),
      if_pos (show c8Params.state = SIMULATION_STATE_COLLECTED from rfl)]
    rfl
  simp only [updateParticlesBody]
  rw [if_neg]
  · rw [hdt, hcr, hdisp]
    simp only [c8_post_eval]
  · rintro ⟨hfeq, -⟩
    have hfeq' : FP.feq (FP.fin 0) (FP.fin (-1)) := hfeq
    norm_num [FP.feq] at hfeq'

/-- C8 counterexample: with `pixelSizeMode = 1` and a non-integer target, the
position stored by a COLLECTED tick is `0.5`, which is not its rounded value:
`updateParticles` never invokes `applyPixelPerfectMode`. -/
theorem claim_C8_counterexample :
    c8Params.pixelSizeMode = 1 ∧
    (updateParticlesBody c8Particle c8Params 0).1.position.x = FP.fin (1/2) ∧
    FP.fin (1/2) ≠ FP.fround (FP.fin (1/2)) := by
  refine ⟨rfl, by rw [c8_body_eval]; rfl, ?_⟩
  have h : FP.fround (FP.fin (1/2)) = FP.fin 1 := by
    norm_num [FP.fround, FP.roundAway]
  rw [h]
  intro hcontra
  rw [FP.fin.injEq] at hcontra
  norm_num at hcontra

/-- C8 (amended): `applyPixelPerfectMode` with `pixelSizeMode = 1` snaps both
position coordinates to their rounded values; but `updateParticles` never
calls it, so tick output positions are not snapped (see the counterexample). -/
theorem claim_C8_pixel_snap (p : Particle) (m : ℕ) (h : m = 1) :
    (applyPixelPerfectMode p m).position.x = FP.fround p.position.x ∧
    (applyPixelPerfectMode p m).position.y = FP.fround p.position.y := by
  subst h
  simp [applyPixelPerfectMode]

/-- Witness for the amended C8. -/
theorem claim_C8_witness :
    (1 : ℕ) = 1 ∧
    (applyPixelPerfectMode baseParticle 1).position.x = FP.fround baseParticle.position.x :=
  ⟨rfl, (claim_C8_pixel_snap baseParticle 1 rfl).1⟩

/- Sampler lemma chain. -/

theorem bubbleAux_perm (cur : SampleC) (l : List SampleC) :
    (bubbleAux cur l).Perm (cur :: l) := by
  induction l generalizing cur with
  | nil => exact List.Perm.refl _
  | cons b rest ih =>
      simp only [bubbleAux]
      split_ifs
      · exact ((ih cur).cons b).trans (List.Perm.swap cur b rest)
      · exact (ih b).cons cur

theorem bubblePass_perm (l : List SampleC) : (bubblePass l).Perm l := by
  cases l with
  | nil => exact List.Perm.refl _
  | cons a rest => exact bubbleAux_perm a rest

theorem bubblePassN_perm (n : ℕ) : ∀ l : List SampleC, (bubblePassN n l).Perm l := by
  induction n with
  | zero => exact fun l => List.Perm.refl _
  | succ n ih => exact fun l => (ih (bubblePass l)).trans (bubblePass_perm l)

theorem bubbleSort_perm (l : List SampleC) : (bubbleSort l).Perm l :=
  bubblePassN_perm _ l

theorem strideAux_sublist (step fuel : ℕ) :
    ∀ l : List SampleC, (strideAux step fuel l).Sublist l := by
  induction fuel with
  | zero =>
      intro l
      simp only [strideAux]
      exact List.nil_sublist l
  | succ n ih =>
      intro l
      cases l with
      | nil => simp [strideAux]
      | cons a rest =>
          simp only [strideAux]
          exact ((ih (rest.drop (step - 1))).trans (List.drop_sublist _ _)).cons₂ a

theorem strideTake_sublist (step : ℕ) (l : List SampleC) :
    (strideTake step l).Sublist l :=
  strideAux_sublist step l.length l

theorem mem_bucketOf {samples : List SampleC} {bh bands i : ℤ} {e : SampleC} :
    e ∈ bucketOf samples bh bands i ↔ e ∈ samples ∧ bandOf e bh bands = i := by
  simp [bucketOf]

theorem bucketOf_sublist (samples : List SampleC) (bh bands i : ℤ) :
    (bucketOf samples bh bands i).Sublist samples :=
  List.filter_sublist samples

theorem coords_nodup_of_sublist {l₁ l₂ : List SampleC} (h : l₁.Sublist l₂)
    (hn : (coordsOf l₂).Nodup) : (coordsOf l₁).Nodup :=
  List.Nodup.sublist (h.map sCoords) hn

theorem coords_nodup_of_perm {l₁ l₂ : List SampleC} (h : l₁.Perm l₂)
    (hn : (coordsOf l₂).Nodup) : (coordsOf l₁).Nodup :=
  ((h.map sCoords).nodup_iff).mpr hn

theorem coords_mem_of_mem {l : List SampleC} {e : SampleC} (h : e ∈ l) :
    sCoords e ∈ coordsOf l :=
  List.mem_map_of_mem sCoords h

theorem length_le_of_coords_nodup {res samples : List SampleC}
    (hres : (coordsOf res).Nodup) (hsub : ∀ e ∈ res, e ∈ samples) :
    res.length ≤ samples.length := by
  have h1 : res.length = (coordsOf res).toFinset.card := by
    rw [List.toFinset_card_of_nodup hres, coordsOf, List.length_map]
  have h2 : (coordsOf res).toFinset ⊆ (coordsOf samples).toFinset := by
    intro x hx
    rw [List.mem_toFinset] at hx ⊢
    obtain ⟨e, he, rfl⟩ := List.mem_map.mp hx
    exact coords_mem_of_mem (hsub e he)
  calc res.length = (coordsOf res).toFinset.card := h1
    _ ≤ (coordsOf samples).toFinset.card := Finset.card_le_card h2
    _ ≤ (coordsOf samples).length := List.toFinset_card_le _
    _ = samples.length := by rw [coordsOf, List.length_map]

theorem selectBand_spec (buckets : ℕ → List SampleC) (quotas : List ℤ) (target : ℕ)
    (out : List SampleC) (i : ℕ) (hb : (coordsOf (buckets i)).Nodup) :
    ∃ chunk : List SampleC,
      selectBand buckets quotas target out i = out ++ chunk ∧
      (∀ e ∈ chunk, e ∈ buckets i) ∧
      (coordsOf chunk).Nodup ∧
      chunk.length ≤ target - out.length := by
  simp only [selectBand]
  split_ifs with h hstep
  · exact ⟨[], by simp, by simp, by simp [coordsOf], by simp⟩
  all_goals refine ⟨_, rfl, ?_, ?_, ?_⟩
  all_goals
    first
      | (intro e he
         have h1 := (List.take_sublist _ _).subset he
         have h2 := (strideTake_sublist _ _).subset h1
         exact (bubbleSort_perm (buckets i)).subset h2)
      | exact coords_nodup_of_sublist
          ((List.take_sublist _ _).trans (strideTake_sublist _ _))
          (coords_nodup_of_perm (bubbleSort_perm _) hb)
      | exact List.length_take_le _ _

theorem selFold_inv (buckets : ℕ → List SampleC) (quotas : List ℤ) (target : ℕ)
    (hnodup : ∀ i, (coordsOf (buckets i)).Nodup)
    (hdisj : ∀ e i j, e ∈ buckets i → e ∈ buckets j → i = j)
    (hinj : ∀ e f i j, e ∈ buckets i → f ∈ buckets j → sCoords e = sCoords f → e = f) :
    ∀ (is : List ℕ) (out : List SampleC), is.Nodup →
      out.length ≤ target → (coordsOf out).Nodup →
      (∀ e ∈ out, ∃ j, j ∉ is ∧ e ∈ buckets j) →
      (is.foldl (selectBand buckets quotas target) out).length ≤ target ∧
      (coordsOf (is.foldl (selectBand buckets quotas target) out)).Nodup ∧
      (∀ e ∈ is.foldl (selectBand buckets quotas target) out, ∃ j, e ∈ buckets j) := by
  intro is
  induction is with
  | nil =>
      intro out _ h1 h2 h3
      exact ⟨h1, h2, fun e he => (h3 e he).imp (fun j hj => hj.2)⟩
  | cons i rest ih =>
      intro out hnd h1 h2 h3
      simp only [List.foldl_cons]
      obtain ⟨chunk, heq, hmem, hcn, hlen⟩ := selectBand_spec buckets quotas target out i
        (hnodup i)
      rw [heq]
      refine ih (out ++ chunk) (List.Nodup.of_cons hnd) ?_ ?_ ?_
      · rw [List.length_append]
        omega
      · rw [coordsOf, List.map_append]
        refine List.Nodup.append h2 hcn ?_
        intro x hx hx'
        obtain ⟨e, he, rfl⟩ := List.mem_map.mp hx
        obtain ⟨f, hf, hcf⟩ := List.mem_map.mp hx'
        obtain ⟨j, hj, hej⟩ := h3 e he
        have hef : e = f := hinj e f j i hej (hmem f hf) hcf.symm
        exact hj (by
          have : j = i := hdisj e j i hej (hef ▸ hmem f hf)
          simp [this])
      · intro e he
        rcases List.mem_append.mp he with he | he
        · obtain ⟨j, hj, hej⟩ := h3 e he
          exact ⟨j, fun hjr => hj (List.mem_cons_of_mem i hjr), hej⟩
        · exact ⟨i, fun hir => (List.nodup_cons.mp hnd).1 hir, hmem e he⟩

theorem selectionPass_inv (buckets : ℕ → List SampleC) (quotas : List ℤ)
    (bands target : ℕ)
    (hnodup : ∀ i, (coordsOf (buckets i)).Nodup)
    (hdisj : ∀ e i j, e ∈ buckets i → e ∈ buckets j → i = j)
    (hinj : ∀ e f i j, e ∈ buckets i → f ∈ buckets j → sCoords e = sCoords f → e = f) :
    (selectionPass buckets quotas bands target).length ≤ target ∧
    (coordsOf (selectionPass buckets quotas bands target)).Nodup ∧
    (∀ e ∈ selectionPass buckets quotas bands target, ∃ j, e ∈ buckets j) := by
  unfold selectionPass
  exact selFold_inv buckets quotas target hnodup hdisj hinj (List.range bands) []
    (List.nodup_range bands) (by simp) (by simp [coordsOf]) (by simp)

theorem dedupFoldBucket (target : ℕ) (bucket : List SampleC) :
    ∀ out : List SampleC, out.length ≤ target →
      ∃ suffix : List SampleC,
        bucket.foldl (dedupInsert target) out = out ++ suffix ∧
        (out ++ suffix).length ≤ target ∧
        ((coordsOf out).Nodup → (coordsOf (out ++ suffix)).Nodup) ∧
        (∀ e ∈ suffix, e ∈ bucket) ∧
        ((out ++ suffix).length = target ∨
          ∀ e ∈ bucket, sCoords e ∈ coordsOf (out ++ suffix)) := by
  induction bucket with
  | nil => exact fun out h => ⟨[], by simp, by simpa using h, fun hn => by simpa using hn,
      by simp, Or.inr (by simp)⟩
  | cons e rest ih =>
      intro out hlen
      simp only [List.foldl_cons]
      by_cases hc : out.length < target ∧ out.all (fun w => ¬(w.x = e.x ∧ w.y = e.y)) = true
      · -- inserted
        rw [dedupInsert, if_pos hc]
        obtain ⟨hlt, hall⟩ := hc
        obtain ⟨suf, heq, hlen', hnod', hmem', hcomp'⟩ := ih (out ++ [e]) (by
          simp only [List.length_append, List.length_singleton]
          omega)
        refine ⟨[e] ++ suf, by rw [heq, List.append_assoc],
          by rw [← List.append_assoc]; exact hlen', ?_, ?_, ?_⟩
        · intro hn
          have hne : sCoords e ∉ coordsOf out := by
            intro hmem
            obtain ⟨w, hw, hwc⟩ := List.mem_map.mp hmem
            have := List.all_eq_true.mp hall w hw
            simp only [sCoords, Prod.mk.injEq] at hwc
            simp only [decide_not, Bool.not_eq_true', decide_eq_false_iff_not] at this
            exact this ⟨hwc.1, hwc.2⟩
          have hn' : (coordsOf (out ++ [e])).Nodup := by
            rw [coordsOf, List.map_append]
            refine List.Nodup.append hn (by simp) ?_
            intro x hx hx'
            simp only [List.map_cons, List.map_nil, List.mem_singleton] at hx'
            subst hx'
            exact hne hx
          have := hnod' hn'
          rwa [List.append_assoc] at this
        · intro f hf
          rcases List.mem_append.mp hf with hf | hf
          · simp only [List.mem_singleton] at hf
            subst hf
            exact List.mem_cons_self _ _
          · exact List.mem_cons_of_mem e (hmem' f hf)
        · rcases hcomp' with hcomp' | hcomp'
          · left
            rw [← List.append_assoc]
            exact hcomp'
          · right
            intro f hf
            rcases List.mem_cons.mp hf with hf | hf
            · subst hf
              rw [← List.append_assoc, coordsOf]
              exact List.mem_map_of_mem sCoords (by simp)
            · rw [← List.append_assoc]
              exact hcomp' f hf
      · -- not inserted
        rw [dedupInsert, if_neg hc]
        obtain ⟨suf, heq, hlen', hnod', hmem', hcomp'⟩ := ih out hlen
        refine ⟨suf, heq, hlen', hnod', fun f hf => List.mem_cons_of_mem e (hmem' f hf), ?_⟩
        rw [not_and_or] at hc
        rcases hc with hc | hc
        · -- length already at target
          left
          have h1 : out.length = target := by omega
          have h2 : target ≤ (out ++ suf).length := by
            rw [List.length_append]
            omega
          omega
        · rcases hcomp' with hcomp' | hcomp'
          · exact Or.inl hcomp'
          · right
            intro f hf
            rcases List.mem_cons.mp hf with hf | hf
            · subst hf
              -- e's coordinates already occur in out
              rw [List.all_eq_true] at hc
              push_neg at hc
              obtain ⟨w, hw, hwc⟩ := hc
              simp only [ne_eq, decide_eq_true_eq, Classical.not_imp, not_not] at hwc
              have : sCoords w = sCoords f := by
                simp [sCoords, hwc.1, hwc.2]
              rw [coordsOf, List.map_append]
              exact List.mem_append_left _ (this ▸ coords_mem_of_mem hw)
            · exact hcomp' f hf

theorem dedupBand_spec (buckets : ℕ → List SampleC) (target : ℕ)
    (out : List SampleC) (i : ℕ) (hlen : out.length ≤ target) :
    ∃ suffix : List SampleC,
      dedupBand buckets target out i = out ++ suffix ∧
      (out ++ suffix).length ≤ target ∧
      ((coordsOf out).Nodup → (coordsOf (out ++ suffix)).Nodup) ∧
      (∀ e ∈ suffix, e ∈ buckets i) ∧
      ((out ++ suffix).length = target ∨
        ∀ e ∈ buckets i, sCoords e ∈ coordsOf (out ++ suffix)) :=
  dedupFoldBucket target (buckets i) out hlen

theorem dedupFold_inv (buckets : ℕ → List SampleC) (target : ℕ) :
    ∀ (is : List ℕ) (out : List SampleC), out.length ≤ target →
      ∃ suffix : List SampleC,
        is.foldl (dedupBand buckets target) out = out ++ suffix ∧
        (out ++ suffix).length ≤ target ∧
        ((coordsOf out).Nodup → (coordsOf (out ++ suffix)).Nodup) ∧
        (∀ e ∈ suffix, ∃ j ∈ is, e ∈ buckets j) ∧
        ((out ++ suffix).length = target ∨
          ∀ j ∈ is, ∀ e ∈ buckets j, sCoords e ∈ coordsOf (out ++ suffix)) := by
  intro is
  induction is with
  | nil => exact fun out h => ⟨[], by simp, by simpa using h, fun hn => by simpa using hn,
      by simp, Or.inr (by simp)⟩
  | cons i rest ih =>
      intro out hlen
      simp only [List.foldl_cons]
      obtain ⟨suf1, heq1, hlen1, hnod1, hmem1, hcomp1⟩ :=
        dedupBand_spec buckets target out i hlen
      obtain ⟨suf2, heq2, hlen2, hnod2, hmem2, hcomp2⟩ := ih (out ++ suf1) hlen1
      have hassoc : out ++ suf1 ++ suf2 = out ++ (suf1 ++ suf2) := List.append_assoc _ _ _
      refine ⟨suf1 ++ suf2, by rw [heq1, heq2, hassoc], ?_, ?_, ?_, ?_⟩
      · rw [← hassoc]
        exact hlen2
      · intro hn
        rw [← hassoc]
        exact hnod2 (hnod1 hn)
      · intro e he
        rcases List.mem_append.mp he with he | he
        · exact ⟨i, List.mem_cons_self i rest, hmem1 e he⟩
        · obtain ⟨j, hj, hej⟩ := hmem2 e he
          exact ⟨j, List.mem_cons_of_mem i hj, hej⟩
      · rcases hcomp2 with hcomp2 | hcomp2
        · left
          rw [← hassoc]
          exact hcomp2
        · rcases hcomp1 with hcomp1 | hcomp1
          · -- band i filled the buffer: it stays full
            left
            simp only [List.length_append] at hcomp1 hlen2 ⊢
            omega
          · right
            intro j hj e he
            rcases List.mem_cons.mp hj with hj | hj
            · subst hj
              have := hcomp1 e he
              simp only [coordsOf, List.map_append, List.mem_append] at this ⊢
              tauto
            · rw [← hassoc]
              exact hcomp2 j hj e he


theorem ratTrunc_nonneg {q : ℚ} (h : 0 ≤ q) : 0 ≤ ratTrunc q := by
  rw [ratTrunc, if_pos h]
  exact Int.floor_nonneg.mpr h

theorem ratTrunc_le {q : ℚ} (h : 0 ≤ q) : (ratTrunc q : ℚ) ≤ q := by
  rw [ratTrunc, if_pos h]
  exact Int.floor_le q

theorem ratTrunc_eq_floor {q : ℚ} (h : 0 ≤ q) : ratTrunc q = ⌊q⌋ := by
  rw [ratTrunc, if_pos h]

theorem bandHeightOf_pos (imageHeight bands : ℤ) (hh : 0 < imageHeight)
    (hb : 0 < bands) : 0 < bandHeightOf imageHeight bands := by
  unfold bandHeightOf
  rw [Int.tdiv_eq_ediv (by omega) (by omega)]
  rw [Int.lt_iff_add_one_le, zero_add, Int.le_ediv_iff_mul_le hb]
  omega

theorem bandOf_range (s : SampleC) (bh bands : ℤ) (hbh : 0 < bh) (hbands : 0 < bands)
    (hy : 0 ≤ s.y) : 0 ≤ bandOf s bh bands ∧ bandOf s bh bands < bands := by
  have h0 : 0 ≤ s.y.tdiv bh := Int.tdiv_nonneg hy (le_of_lt hbh)
  simp only [bandOf]
  split_ifs with h
  · constructor <;> omega
  · exact ⟨h0, by omega⟩

theorem list_range_map_sum (f : ℕ → ℚ) (n : ℕ) :
    ((List.range n).map f).sum = ∑ i ∈ Finset.range n, f i := by
  induction n with
  | zero => simp
  | succ n ih =>
      rw [List.range_succ, List.map_append, List.sum_append, Finset.sum_range_succ, ih]
      simp

theorem sum_over_buckets (g : SampleC → ℚ) (bh bands : ℤ) (hbh : 0 < bh)
    (hbands : 0 < bands) :
    ∀ samples : List SampleC, (∀ s ∈ samples, 0 ≤ s.y) →
      (∑ i ∈ Finset.range bands.toNat,
        ((bucketOf samples bh bands (i : ℤ)).map g).sum) = (samples.map g).sum := by
  intro samples
  induction samples with
  | nil => simp [bucketOf]
  | cons s rest ih =>
      intro hy
      have hrest := ih (fun t ht => hy t (List.mem_cons_of_mem s ht))
      have hband := bandOf_range s bh bands hbh hbands (hy s (List.mem_cons_self s rest))
      have hmem : (bandOf s bh bands).toNat ∈ Finset.range bands.toNat := by
        rw [Finset.mem_range]
        omega
      have hcast : ((bandOf s bh bands).toNat : ℤ) = bandOf s bh bands :=
        Int.toNat_of_nonneg hband.1
      have hsplit : ∀ i : ℕ, bucketOf (s :: rest) bh bands (i : ℤ)
          = if bandOf s bh bands = (i : ℤ) then s :: bucketOf rest bh bands (i : ℤ)
            else bucketOf rest bh bands (i : ℤ) := fun i => by
        simp only [bucketOf, List.filter_cons, decide_eq_true_eq]
      have hstep : (∑ i ∈ Finset.range bands.toNat,
            ((bucketOf (s :: rest) bh bands (i : ℤ)).map g).sum)
          = ∑ i ∈ Finset.range bands.toNat,
              (((bucketOf rest bh bands (i : ℤ)).map g).sum
                + if bandOf s bh bands = (i : ℤ) then g s else 0) := by
        refine Finset.sum_congr rfl fun i _ => ?_
        rw [hsplit i]
        split_ifs with h
        · simp [add_comm]
        · simp
      have hind : (∑ i ∈ Finset.range bands.toNat,
            if bandOf s bh bands = (i : ℤ) then g s else 0) = g s := by
        rw [Finset.sum_eq_single (bandOf s bh bands).toNat]
        · rw [if_pos hcast.symm]
        · intro b _ hb
          rw [if_neg]
          intro hEq
          apply hb
          omega
        · intro habs
          exact absurd hmem habs
      rw [hstep, Finset.sum_add_distrib, hrest, hind]
      simp [add_comm]

theorem sum_map_one (l : List SampleC) : (l.map fun _ => (1 : ℚ)).sum = l.length := by
  induction l with
  | nil => simp
  | cons a rest ih => simp [ih, add_comm]

theorem bucket_count_sum (samples : List SampleC) (bh bands : ℤ) (hbh : 0 < bh)
    (hbands : 0 < bands) (hy : ∀ s ∈ samples, 0 ≤ s.y) :
    ((List.range bands.toNat).map
      (fun (i : ℕ) => ((bucketOf samples bh bands (i : ℤ)).length : ℚ))).sum
      = samples.length := by
  rw [list_range_map_sum]
  calc (∑ i ∈ Finset.range bands.toNat, ((bucketOf samples bh bands (i : ℤ)).length : ℚ))
      = ∑ i ∈ Finset.range bands.toNat,
          ((bucketOf samples bh bands (i : ℤ)).map fun _ => (1 : ℚ)).sum :=
        Finset.sum_congr rfl fun i _ => (sum_map_one _).symm
    _ = (samples.map fun _ => (1 : ℚ)).sum := sum_over_buckets _ bh bands hbh hbands samples hy
    _ = samples.length := sum_map_one samples

theorem imps_sum_eq_total (samples : List SampleC) (bh bands : ℤ) (hbh : 0 < bh)
    (hbands : 0 < bands) (hy : ∀ s ∈ samples, 0 ≤ s.y) :
    (bandImportancesOf samples bh bands).sum = totalImportanceOf samples bh bands := by
  unfold bandImportancesOf totalImportanceOf
  split_ifs with h
  · rfl
  · unfold rawBandImportances rawTotalImportance
    rw [list_range_map_sum]
    exact sum_over_buckets sampleImportance bh bands hbh hbands samples hy

theorem total_pos (samples : List SampleC) (bh bands : ℤ) (hbh : 0 < bh)
    (hbands : 0 < bands) (hy : ∀ s ∈ samples, 0 ≤ s.y) (hne : samples ≠ []) :
    0 < totalImportanceOf samples bh bands := by
  unfold totalImportanceOf
  split_ifs with h
  · rw [bucket_count_sum samples bh bands hbh hbands hy]
    have : 0 < samples.length := List.length_pos.mpr hne
    exact_mod_cast this
  · exact lt_of_not_le h

theorem sampleImportance_nonneg {s : SampleC}
    (h : 0 ≤ s.r ∧ 0 ≤ s.g ∧ 0 ≤ s.b ∧ 0 ≤ s.a) : 0 ≤ sampleImportance s := by
  unfold sampleImportance
  obtain ⟨hr, hg, hb, ha⟩ := h
  have h3 : (0 : ℚ) ≤ (s.r + s.g + s.b) / 3 := by
    apply div_nonneg (by linarith) (by norm_num)
  exact mul_nonneg ha h3

theorem imps_nonneg (samples : List SampleC) (bh bands : ℤ)
    (hnn : ∀ s ∈ samples, 0 ≤ sampleImportance s) :
    ∀ q ∈ bandImportancesOf samples bh bands, 0 ≤ q := by
  intro q hq
  unfold bandImportancesOf at hq
  split_ifs at hq with h
  · obtain ⟨i, _, rfl⟩ := List.mem_map.mp hq
    positivity
  · unfold rawBandImportances at hq
    obtain ⟨i, _, rfl⟩ := List.mem_map.mp hq
    refine List.sum_nonneg ?_
    intro x hx
    obtain ⟨t, ht, rfl⟩ := List.mem_map.mp hx
    exact hnn t ((bucketOf_sublist _ _ _ _).subset ht)


theorem cast_list_sum (l : List ℤ) :
    ((l.sum : ℤ) : ℚ) = (l.map (fun z : ℤ => (z : ℚ))).sum := by
  push_cast
  rfl

theorem map_sum_sub (l : List ℚ) (f g : ℚ → ℚ) :
    (l.map (fun x => f x - g x)).sum = (l.map f).sum - (l.map g).sum := by
  induction l with
  | nil => simp
  | cons a rest ih =>
      simp only [List.map_cons, List.sum_cons, ih]
      ring

theorem rawQuotas_sum_le (imps : List ℚ) (total : ℚ) (target : ℤ)
    (hpos : 0 < total) (hnn : ∀ q ∈ imps, 0 ≤ q) (hsum : imps.sum = total)
    (ht : 0 ≤ target) : (rawQuotas imps total target).sum ≤ target := by
  have htq : (0 : ℚ) ≤ ((target : ℤ) : ℚ) := by exact_mod_cast ht
  have key : (((rawQuotas imps total target).map (fun z : ℤ => (z : ℚ))).sum
      ≤ (imps.map (fun imp => imp * ((target : ℚ) / total))).sum) := by
    unfold rawQuotas
    rw [List.map_map]
    refine List.sum_le_sum ?_
    intro imp himp
    have hx : (0 : ℚ) ≤ imp / total * (target : ℚ) :=
      mul_nonneg (div_nonneg (hnn imp himp) hpos.le) htq
    calc ((ratTrunc (imp / total * (target : ℚ)) : ℤ) : ℚ)
        ≤ imp / total * (target : ℚ) := ratTrunc_le hx
      _ = imp * ((target : ℚ) / total) := by ring
  rw [List.sum_map_mul_right] at key
  simp only [List.map_id'] at key
  rw [hsum] at key
  have h2 : total * ((target : ℚ) / total) = (target : ℚ) := by
    field_simp
  rw [h2, ← cast_list_sum] at key
  exact_mod_cast key

theorem frac_sum_lt (total : ℚ) (target : ℤ) :
    ∀ imps : List ℚ, (∀ q ∈ imps, 0 ≤ q) →
      ((imps.map (fun imp => Int.fract (imp / total * (target : ℚ)))).sum
          ≤ ((imps.countP (fun q => 0 < q) : ℕ) : ℚ)) ∧
      (0 < imps.sum →
        (imps.map (fun imp => Int.fract (imp / total * (target : ℚ)))).sum
          < ((imps.countP (fun q => 0 < q) : ℕ) : ℚ)) := by
  intro imps
  induction imps with
  | nil =>
      intro _
      refine ⟨by simp, ?_⟩
      intro h
      simp at h
  | cons a rest ih =>
      intro hnn
      obtain ⟨ihle, ihlt⟩ := ih (fun q hq => hnn q (List.mem_cons_of_mem a hq))
      have ha := hnn a (List.mem_cons_self a rest)
      by_cases hpa : 0 < a
      · have hfr : Int.fract (a / total * (target : ℚ)) < 1 := Int.fract_lt_one _
        have hfr0 : 0 ≤ Int.fract (a / total * (target : ℚ)) := Int.fract_nonneg _
        have hcount : (((a :: rest).countP (fun q => 0 < q) : ℕ) : ℚ)
            = ((rest.countP (fun q => 0 < q) : ℕ) : ℚ) + 1 := by
          rw [List.countP_cons, if_pos (by simpa using hpa)]
          push_cast
          ring
        constructor
        · rw [List.map_cons, List.sum_cons, hcount]
          linarith
        · intro _
          rw [List.map_cons, List.sum_cons, hcount]
          linarith
      · have ha0 : a = 0 := le_antisymm (not_lt.mp hpa) ha
        have hfr0 : Int.fract (a / total * (target : ℚ)) = 0 := by
          rw [ha0]
          norm_num
        have hcount : (((a :: rest).countP (fun q => 0 < q) : ℕ) : ℚ)
            = ((rest.countP (fun q => 0 < q) : ℕ) : ℚ) := by
          rw [List.countP_cons, if_neg (by simpa using hpa)]
          simp
        constructor
        · rw [List.map_cons, List.sum_cons, hfr0, zero_add, hcount]
          exact ihle
        · intro hsum
          rw [List.map_cons, List.sum_cons, hfr0, zero_add, hcount]
          apply ihlt
          rw [List.sum_cons, ha0, zero_add] at hsum
          exact hsum

theorem remainder_lt_posCount (imps : List ℚ) (total : ℚ) (target : ℤ)
    (hpos : 0 < total) (hnn : ∀ q ∈ imps, 0 ≤ q) (hsum : imps.sum = total)
    (ht : 0 ≤ target) :
    target - (rawQuotas imps total target).sum
      < ((imps.countP (fun q => 0 < q) : ℕ) : ℤ) := by
  have htq : (0 : ℚ) ≤ ((target : ℤ) : ℚ) := by exact_mod_cast ht
  have hx : ∀ imp ∈ imps, (0 : ℚ) ≤ imp / total * (target : ℚ) := fun imp himp =>
    mul_nonneg (div_nonneg (hnn imp himp) hpos.le) htq
  have hQ : (((rawQuotas imps total target).sum : ℤ) : ℚ)
      = (imps.map (fun imp => ((⌊imp / total * (target : ℚ)⌋ : ℤ) : ℚ))).sum := by
    rw [cast_list_sum]
    unfold rawQuotas
    rw [List.map_map]
    refine congrArg List.sum (List.map_congr_left ?_)
    intro imp himp
    simp only [Function.comp_apply]
    rw [ratTrunc_eq_floor (hx imp himp)]
  have hT : (imps.map (fun imp => imp / total * (target : ℚ))).sum = (target : ℚ) := by
    have heq : (fun imp => imp / total * (target : ℚ))
        = fun imp => imp * ((target : ℚ) / total) := funext fun imp => by ring
    rw [heq, List.sum_map_mul_right]
    simp only [List.map_id']
    rw [hsum]
    field_simp
  have hfr : (imps.map (fun imp => Int.fract (imp / total * (target : ℚ)))).sum
      = (target : ℚ) - (((rawQuotas imps total target).sum : ℤ) : ℚ) := by
    have heq : (fun imp => Int.fract (imp / total * (target : ℚ)))
        = fun imp => (imp / total * (target : ℚ))
            - ((⌊imp / total * (target : ℚ)⌋ : ℤ) : ℚ) :=
      funext fun imp => (Int.self_sub_floor _).symm
    rw [heq, map_sum_sub, hT, hQ]
  have hlt := (frac_sum_lt total target imps hnn).2 (by rw [hsum]; exact hpos)
  rw [hfr] at hlt
  exact_mod_cast hlt

theorem argmaxScan_spec (l : List ℚ) :
    ∀ (k best : ℕ) (bestImp : ℚ),
      (argmaxScan l k best bestImp = best ∧ ∀ j, j < l.length → l.getD j 0 ≤ bestImp) ∨
      (∃ j, j < l.length ∧ argmaxScan l k best bestImp = k + j ∧
        bestImp < l.getD j 0) := by
  induction l with
  | nil =>
      intro k best bestImp
      left
      refine ⟨rfl, ?_⟩
      intro j hj
      simp at hj
  | cons imp rest ih =>
      intro k best bestImp
      simp only [argmaxScan]
      split_ifs with h
      · rcases ih (k + 1) k imp with ⟨hres, hall⟩ | ⟨j, hj, hres, hgt⟩
        · right
          refine ⟨0, by simp, ?_, by simpa using h⟩
          rw [hres]
          omega
        · right
          refine ⟨j + 1, by simpa using hj, ?_, ?_⟩
          · rw [hres]
            omega
          · rw [List.getD_cons_succ]
            exact lt_trans h hgt
      · rcases ih (k + 1) best bestImp with ⟨hres, hall⟩ | ⟨j, hj, hres, hgt⟩
        · left
          refine ⟨hres, ?_⟩
          intro j hj
          cases j with
          | zero => simpa using not_lt.mp h
          | succ j =>
              rw [List.getD_cons_succ]
              exact hall j (by simpa using hj)
        · right
          refine ⟨j + 1, by simpa using hj, ?_, ?_⟩
          · rw [hres]
            omega
          · rw [List.getD_cons_succ]
            exact hgt

theorem argmax_pos (imps : List ℚ)
    (hne : ∃ j, j < imps.length ∧ 0 < imps.getD j 0) :
    argmaxBand imps < imps.length ∧ 0 < imps.getD (argmaxBand imps) 0 := by
  obtain ⟨j0, hj0, hpos⟩ := hne
  unfold argmaxBand
  rcases argmaxScan_spec imps 0 0 0 with ⟨hres, hall⟩ | ⟨j, hj, hres, hgt⟩
  · exact absurd (hall j0 hj0) (not_le.mpr hpos)
  · rw [hres, Nat.zero_add]
    exact ⟨hj, hgt⟩

theorem countP_pos_index (l : List ℚ) (h : 0 < l.countP (fun q => 0 < q)) :
    ∃ j, j < l.length ∧ 0 < l.getD j 0 := by
  obtain ⟨a, ha, hpa⟩ := List.countP_pos_iff.mp h
  obtain ⟨j, hj, rfl⟩ := List.mem_iff_getElem.mp ha
  refine ⟨j, hj, ?_⟩
  rw [List.getD_eq_getElem _ _ hj]
  simpa using hpa

theorem countP_set_zero : ∀ (l : List ℚ) (b : ℕ), b < l.length → 0 < l.getD b 0 →
    (l.set b 0).countP (fun q => 0 < q) + 1 = l.countP (fun q => 0 < q) := by
  intro l
  induction l with
  | nil =>
      intro b hb
      simp at hb
  | cons a rest ih =>
      intro b hb hpos
      cases b with
      | zero =>
          rw [List.getD_cons_zero] at hpos
          rw [List.set_cons_zero, List.countP_cons, List.countP_cons]
          simp only [decide_eq_true_eq]
          rw [if_neg (lt_irrefl 0), if_pos hpos]
      | succ b =>
          rw [List.set_cons_succ, List.countP_cons, List.countP_cons]
          rw [List.getD_cons_succ] at hpos
          have := ih b (by simpa using hb) hpos
          omega

theorem distribute_awards : ∀ (fuel : ℕ) (quotas : List ℤ) (imps : List ℚ),
    (∀ q ∈ imps, 0 ≤ q) →
    fuel ≤ imps.countP (fun q => 0 < q) →
    (distributeRemainder quotas imps fuel).2.2.Nodup ∧
    ∀ b ∈ (distributeRemainder quotas imps fuel).2.2,
      b < imps.length ∧ 0 < imps.getD b 0 := by
  intro fuel
  induction fuel with
  | zero =>
      intro quotas imps _ _
      refine ⟨List.nodup_nil, ?_⟩
      intro b hb
      simp [distributeRemainder] at hb
  | succ fuel ih =>
      intro quotas imps hnn hfuel
      have hcp : 0 < imps.countP (fun q => 0 < q) :=
        lt_of_lt_of_le (Nat.succ_pos fuel) hfuel
      obtain ⟨hblen, hbpos⟩ := argmax_pos imps (countP_pos_index imps hcp)
      have hnn' : ∀ q ∈ imps.set (argmaxBand imps) 0, 0 ≤ q := by
        intro q hq
        rcases List.mem_or_eq_of_mem_set hq with hq | hq
        · exact hnn q hq
        · rw [hq]
      have hcount' : fuel ≤ (imps.set (argmaxBand imps) 0).countP (fun q => 0 < q) := by
        have := countP_set_zero imps (argmaxBand imps) hblen hbpos
        omega
      obtain ⟨ihnd, ihmem⟩ := ih
        (quotas.set (argmaxBand imps) (quotas.getD (argmaxBand imps) 0 + 1))
        (imps.set (argmaxBand imps) 0) hnn' hcount'
      have hzero : (imps.set (argmaxBand imps) 0).getD (argmaxBand imps) 0 = 0 := by
        rw [List.getD_eq_getElem _ _ (by simpa using hblen)]
        exact List.getElem_set_self _
      simp only [distributeRemainder]
      constructor
      · refine List.nodup_cons.mpr ⟨?_, ihnd⟩
        intro hmem
        have := (ihmem _ hmem).2
        rw [hzero] at this
        exact lt_irrefl 0 this
      · intro b hb
        rcases List.mem_cons.mp hb with hb | hb
        · rw [hb]
          exact ⟨hblen, hbpos⟩
        · obtain ⟨hlt, hpos⟩ := ihmem b hb
          rw [List.length_set] at hlt
          refine ⟨hlt, ?_⟩
          have hne : b ≠ argmaxBand imps := by
            intro heq
            rw [heq, hzero] at hpos
            exact lt_irrefl 0 hpos
          rw [List.getD_eq_getElem _ _ (by simpa using hlt),
            List.getElem_set_ne (Ne.symm hne)] at hpos
          rwa [List.getD_eq_getElem _ _ hlt]

theorem sum_set_getD_add : ∀ (l : List ℤ) (b : ℕ), b < l.length →
    (l.set b (l.getD b 0 + 1)).sum = l.sum + 1 := by
  intro l
  induction l with
  | nil =>
      intro b hb
      simp at hb
  | cons a rest ih =>
      intro b hb
      cases b with
      | zero =>
          rw [List.getD_cons_zero, List.set_cons_zero, List.sum_cons, List.sum_cons]
          ring
      | succ b =>
          rw [List.getD_cons_succ, List.set_cons_succ, List.sum_cons, List.sum_cons,
            ih b (by simpa using hb)]
          ring

theorem distribute_sum : ∀ (fuel : ℕ) (quotas : List ℤ) (imps : List ℚ),
    quotas.length = imps.length →
    (∀ q ∈ imps, 0 ≤ q) →
    fuel ≤ imps.countP (fun q => 0 < q) →
    (distributeRemainder quotas imps fuel).1.sum = quotas.sum + fuel := by
  intro fuel
  induction fuel with
  | zero =>
      intro quotas imps _ _ _
      simp [distributeRemainder]
  | succ fuel ih =>
      intro quotas imps hlen hnn hfuel
      have hcp : 0 < imps.countP (fun q => 0 < q) :=
        lt_of_lt_of_le (Nat.succ_pos fuel) hfuel
      obtain ⟨hblen, hbpos⟩ := argmax_pos imps (countP_pos_index imps hcp)
      have hnn' : ∀ q ∈ imps.set (argmaxBand imps) 0, 0 ≤ q := by
        intro q hq
        rcases List.mem_or_eq_of_mem_set hq with hq | hq
        · exact hnn q hq
        · rw [hq]
      have hcount' : fuel ≤ (imps.set (argmaxBand imps) 0).countP (fun q => 0 < q) := by
        have := countP_set_zero imps (argmaxBand imps) hblen hbpos
        omega
      have hlen' : (quotas.set (argmaxBand imps) (quotas.getD (argmaxBand imps) 0 + 1)).length
          = (imps.set (argmaxBand imps) 0).length := by
        rw [List.length_set, List.length_set]
        exact hlen
      simp only [distributeRemainder]
      rw [ih _ _ hlen' hnn' hcount',
        sum_set_getD_add quotas (argmaxBand imps) (by rw [hlen]; exact hblen)]
      push_cast
      ring

theorem length_le_of_coords_subset {A B : List SampleC}
    (hA : (coordsOf A).Nodup) (hsub : ∀ c ∈ coordsOf A, c ∈ coordsOf B) :
    A.length ≤ B.length := by
  have h1 : A.length = (coordsOf A).toFinset.card := by
    rw [List.toFinset_card_of_nodup hA, coordsOf, List.length_map]
  have h2 : (coordsOf A).toFinset ⊆ (coordsOf B).toFinset := by
    intro x hx
    rw [List.mem_toFinset] at hx ⊢
    exact hsub x hx
  calc A.length = (coordsOf A).toFinset.card := h1
    _ ≤ (coordsOf B).toFinset.card := Finset.card_le_card h2
    _ ≤ (coordsOf B).length := List.toFinset_card_le _
    _ = B.length := by rw [coordsOf, List.length_map]

theorem bucket_disj (samples : List SampleC) (bh bands : ℤ) :
    ∀ (e : SampleC) (i j : ℕ), e ∈ bucketOf samples bh bands (i : ℤ) →
      e ∈ bucketOf samples bh bands (j : ℤ) → i = j := by
  intro e i j hi hj
  have h1 := (mem_bucketOf.mp hi).2
  have h2 := (mem_bucketOf.mp hj).2
  have : (i : ℤ) = (j : ℤ) := h1.symm.trans h2
  exact_mod_cast this

theorem bucket_inj (samples : List SampleC) (bh bands : ℤ)
    (hnod : (coordsOf samples).Nodup) :
    ∀ (e f : SampleC) (i j : ℕ), e ∈ bucketOf samples bh bands (i : ℤ) →
      f ∈ bucketOf samples bh bands (j : ℤ) → sCoords e = sCoords f → e = f := by
  intro e f i j hi hj hc
  rw [coordsOf] at hnod
  exact List.inj_on_of_nodup_map hnod (mem_bucketOf.mp hi).1 (mem_bucketOf.mp hj).1 hc

theorem writes_shape (buckets : ℕ → List SampleC) (quotas : List ℤ)
    (bands target : ℕ) (res : List SampleC)
    (hres : res = if (selectionPass buckets quotas bands target).length < target
        then dedupPass buckets bands target (selectionPass buckets quotas bands target)
        else selectionPass buckets quotas bands target)
    (hnodup : ∀ i, (coordsOf (buckets i)).Nodup)
    (hdisj : ∀ e i j, e ∈ buckets i → e ∈ buckets j → i = j)
    (hinj : ∀ e f i j, e ∈ buckets i → f ∈ buckets j → sCoords e = sCoords f → e = f) :
    res.length ≤ target ∧ (coordsOf res).Nodup ∧ (∀ e ∈ res, ∃ j, e ∈ buckets j) ∧
    (res.length = target ∨
      ∀ j ∈ List.range bands, ∀ e ∈ buckets j, sCoords e ∈ coordsOf res) := by
  obtain ⟨h1, h2, h3⟩ := selectionPass_inv buckets quotas bands target hnodup hdisj hinj
  subst hres
  split_ifs with hlt
  · obtain ⟨suffix, heq, hlen, hnd, hmem, hcomp⟩ :=
      dedupFold_inv buckets target (List.range bands)
        (selectionPass buckets quotas bands target) h1
    unfold dedupPass
    rw [heq]
    refine ⟨hlen, hnd h2, ?_, hcomp⟩
    intro e he
    rcases List.mem_append.mp he with he | he
    · exact h3 e he
    · obtain ⟨j, _, hej⟩ := hmem e he
      exact ⟨j, hej⟩
  · exact ⟨h1, h2, h3, Or.inl (by omega)⟩

theorem writes_exact (buckets : ℕ → List SampleC) (quotas : List ℤ)
    (bands target : ℕ) (samples : List SampleC) (res : List SampleC)
    (hres : res = if (selectionPass buckets quotas bands target).length < target
        then dedupPass buckets bands target (selectionPass buckets quotas bands target)
        else selectionPass buckets quotas bands target)
    (hnod : (coordsOf samples).Nodup)
    (hnodup : ∀ i, (coordsOf (buckets i)).Nodup)
    (hdisj : ∀ e i j, e ∈ buckets i → e ∈ buckets j → i = j)
    (hinj : ∀ e f i j, e ∈ buckets i → f ∈ buckets j → sCoords e = sCoords f → e = f)
    (hbsub : ∀ j, ∀ e ∈ buckets j, e ∈ samples)
    (hcover : ∀ s ∈ samples, ∃ j ∈ List.range bands, s ∈ buckets j) :
    res.length = min target samples.length := by
  obtain ⟨h1, h2, h3, h4⟩ :=
    writes_shape buckets quotas bands target res hres hnodup hdisj hinj
  have h3' : ∀ e ∈ res, e ∈ samples := by
    intro e he
    obtain ⟨j, hej⟩ := h3 e he
    exact hbsub j e hej
  have hle : res.length ≤ samples.length := length_le_of_coords_nodup h2 h3'
  rcases h4 with h4 | h4
  · omega
  · have hcov : ∀ c ∈ coordsOf samples, c ∈ coordsOf res := by
      intro c hc
      obtain ⟨s, hs, rfl⟩ := List.mem_map.mp hc
      obtain ⟨j, hjr, hsj⟩ := hcover s hs
      exact h4 j hjr s hsj
    have hge : samples.length ≤ res.length := length_le_of_coords_subset hnod hcov
    omega

theorem stratifiedWrites_bounds (samples : List SampleC)
    (targetCount imageHeight bands : ℤ)
    (hnod : (coordsOf samples).Nodup) :
    (stratifiedWrites samples targetCount imageHeight bands).length ≤ targetCount.toNat ∧
    (coordsOf (stratifiedWrites samples targetCount imageHeight bands)).Nodup ∧
    ∀ e ∈ stratifiedWrites samples targetCount imageHeight bands, e ∈ samples := by
  by_cases htot : totalImportanceOf samples (bandHeightOf imageHeight bands) bands ≤ 0
  · simp only [stratifiedWrites]
    rw [if_pos htot]
    exact ⟨by simp, by simp [coordsOf], by simp⟩
  · simp only [stratifiedWrites]
    rw [if_neg htot]
    set bh := bandHeightOf imageHeight bands with hbhdef
    set imps := bandImportancesOf samples bh bands with himps
    set total := totalImportanceOf samples bh bands with htotaldef
    set q0 := rawQuotas imps total targetCount with hq0
    obtain ⟨h1, h2, h3, h4⟩ := writes_shape
      (fun i : ℕ => bucketOf samples bh bands (i : ℤ))
      ((distributeRemainder q0 imps ((targetCount - q0.sum).toNat)).1)
      bands.toNat targetCount.toNat _ rfl
      (fun i => coords_nodup_of_sublist (bucketOf_sublist _ _ _ _) hnod)
      (bucket_disj samples bh bands)
      (bucket_inj samples bh bands hnod)
    refine ⟨h1, h2, ?_⟩
    intro e he
    obtain ⟨j, hej⟩ := h3 e he
    exact (bucketOf_sublist _ _ _ _).subset hej

theorem stratifiedWrites_exact (samples : List SampleC)
    (targetCount imageHeight bands : ℤ)
    (hnod : (coordsOf samples).Nodup) (hy : ∀ s ∈ samples, 0 ≤ s.y)
    (hbands : 0 < bands) (hh : 0 < imageHeight)
    (htot : 0 < totalImportanceOf samples (bandHeightOf imageHeight bands) bands) :
    (stratifiedWrites samples targetCount imageHeight bands).length
      = min targetCount.toNat samples.length := by
  have hbh := bandHeightOf_pos imageHeight bands hh hbands
  simp only [stratifiedWrites]
  rw [if_neg (not_le.mpr htot)]
  set bh := bandHeightOf imageHeight bands with hbhdef
  set imps := bandImportancesOf samples bh bands with himps
  set total := totalImportanceOf samples bh bands with htotaldef
  set q0 := rawQuotas imps total targetCount with hq0
  refine writes_exact
    (fun i : ℕ => bucketOf samples bh bands (i : ℤ))
    ((distributeRemainder q0 imps ((targetCount - q0.sum).toNat)).1)
    bands.toNat targetCount.toNat samples _ rfl hnod
    (fun i => coords_nodup_of_sublist (bucketOf_sublist _ _ _ _) hnod)
    (bucket_disj samples bh bands)
    (bucket_inj samples bh bands hnod)
    (fun j e hej => (bucketOf_sublist _ _ _ _).subset hej)
    ?_
  intro s hs
  have hband := bandOf_range s bh bands hbh hbands (hy s hs)
  refine ⟨(bandOf s bh bands).toNat, ?_, ?_⟩
  · rw [List.mem_range]
    omega
  · exact mem_bucketOf.mpr ⟨hs, (Int.toNat_of_nonneg hband.1).symm⟩

theorem rawTotal_alpha_zero (samples : List SampleC)
    (halpha : ∀ s ∈ samples, s.a = 0) : rawTotalImportance samples = 0 := by
  unfold rawTotalImportance
  apply List.sum_eq_zero
  intro x hx
  obtain ⟨s, hs, rfl⟩ := List.mem_map.mp hx
  unfold sampleImportance
  rw [halpha s hs, zero_mul]

theorem stratifiedWrites_nil (targetCount imageHeight bands : ℤ) :
    stratifiedWrites [] targetCount imageHeight bands = [] := by
  have htot : totalImportanceOf [] (bandHeightOf imageHeight bands) bands = 0 := by
    unfold totalImportanceOf
    rw [if_pos]
    · apply List.sum_eq_zero
      intro x hx
      obtain ⟨i, _, rfl⟩ := List.mem_map.mp hx
      simp [bucketOf]
    · unfold rawTotalImportance
      simp
  simp only [stratifiedWrites]
  rw [if_pos (le_of_eq htot)]

theorem stratifiedSampleC_valid (l buf : List SampleC)
    (sampleCount targetCount imageHeight bands : ℤ)
    (h1 : 0 < sampleCount) (h2 : 0 < targetCount) (h3 : 0 < bands)
    (h4 : 0 < imageHeight) :
    stratifiedSampleC (some l) sampleCount targetCount imageHeight bands (some buf)
      = some (writeBack (stratifiedWrites (l.take sampleCount.toNat)
          targetCount imageHeight bands) buf) := by
  have g1 : ¬((some l).isNone = true ∨ sampleCount ≤ 0 ∨ targetCount ≤ 0 ∨
      (some buf).isNone = true) := by
    simp only [Option.isNone_some, Bool.false_eq_true, false_or, or_false]
    omega
  have g2 : ¬(bands ≤ 0 ∨ imageHeight ≤ 0) := by omega
  unfold stratifiedSampleC
  rw [if_neg g1, if_neg g2]
  rfl

/-- Claim C5 (amended): for valid arguments and an input whose sample
coordinate pairs are pairwise distinct, `stratifiedSampleC` overwrites the
output prefix with at most `targetCount` entries, no more entries than the
number of input samples read, and no two written entries share an `(x, y)`
coordinate pair.  Without the distinct-coordinates hypothesis the
no-duplicate guarantee fails (see the counterexample). -/
theorem claim_C5_output_bounds (l buf : List SampleC)
    (sampleCount targetCount imageHeight bands : ℤ)
    (h1 : 0 < sampleCount) (h2 : 0 < targetCount) (h3 : 0 < bands)
    (h4 : 0 < imageHeight)
    (hnod : (coordsOf (l.take sampleCount.toNat)).Nodup) :
    ∃ writes : List SampleC,
      stratifiedSampleC (some l) sampleCount targetCount imageHeight bands (some buf)
        = some (writeBack writes buf) ∧
      writes.length ≤ targetCount.toNat ∧
      writes.length ≤ (l.take sampleCount.toNat).length ∧
      (coordsOf writes).Nodup := by
  obtain ⟨hlen, hnd, hmem⟩ :=
    stratifiedWrites_bounds (l.take sampleCount.toNat) targetCount imageHeight bands hnod
  exact ⟨stratifiedWrites (l.take sampleCount.toNat) targetCount imageHeight bands,
    stratifiedSampleC_valid l buf _ _ _ _ h1 h2 h3 h4,
    hlen, length_le_of_coords_nodup hnd hmem, hnd⟩

/-- Counterexample to claim C5 as stated: a valid call on an input that
repeats the coordinate pair `(0, 0)` writes that pair twice. -/
theorem claim_C5_counterexample :
    stratifiedSampleC (some [⟨0, 0, 1, 1, 1, 1⟩, ⟨0, 0, 1, 1, 1, 1⟩]) 2 2 1 1 (some [])
      = some [⟨0, 0, 1, 1, 1, 1⟩, ⟨0, 0, 1, 1, 1, 1⟩] ∧
    ¬ (coordsOf [(⟨0, 0, 1, 1, 1, 1⟩ : SampleC), ⟨0, 0, 1, 1, 1, 1⟩]).Nodup := by
  constructor
  · have t1 : ((1 : ℤ)).tdiv 1 = 1 := by decide
    have t2 : ((0 : ℤ)).tdiv 1 = 0 := by decide
    have t3 : ((2 : ℤ)).tdiv 2 = 1 := by decide
    simp only [stratifiedSampleC, stratifiedWrites, Int.reduceToNat]
    norm_num [writeBack, bandHeightOf, bandOf,
      bucketOf, bandImportancesOf, rawBandImportances, rawTotalImportance,
      totalImportanceOf, sampleImportance, rawQuotas, ratTrunc, distributeRemainder,
      argmaxBand, argmaxScan, selectionPass, selectBand, bubbleSort, bubblePassN,
      bubblePass, bubbleAux, strideTake, strideAux, dedupPass, dedupBand, dedupInsert,
      t1, t2, t3, List.range_succ, List.getD_cons_zero, List.getD_cons_succ,
      Int.floor_ofNat, Int.floor_natCast, Int.floor_intCast]
  · simp [coordsOf, sCoords]

/-- Witness for C5 at concrete valid arguments with distinct coordinates. -/
theorem claim_C5_witness :
    (0 : ℤ) < 2 ∧
    (coordsOf (([⟨0, 0, 1, 1, 1, 1⟩, ⟨2, 3, 1, 1, 1, 1⟩] : List SampleC).take
      (2 : ℤ).toNat)).Nodup ∧
    (∃ writes : List SampleC,
      stratifiedSampleC (some [⟨0, 0, 1, 1, 1, 1⟩, ⟨2, 3, 1, 1, 1, 1⟩]) 2 2 1 1 (some [])
        = some (writeBack writes []) ∧
      writes.length ≤ (2 : ℤ).toNat ∧
      writes.length ≤ (([⟨0, 0, 1, 1, 1, 1⟩, ⟨2, 3, 1, 1, 1, 1⟩] : List SampleC).take
        (2 : ℤ).toNat).length ∧
      (coordsOf writes).Nodup) :=
  ⟨by norm_num,
   by decide,
   claim_C5_output_bounds [⟨0, 0, 1, 1, 1, 1⟩, ⟨2, 3, 1, 1, 1, 1⟩] [] 2 2 1 1
     (by norm_num) (by norm_num) (by norm_num) (by norm_num)
     (by decide)⟩

/-- Claim C6: the truncated proportional quotas sum to at most `targetCount`;
the remainder loop (largest importance first, earliest band on ties, zeroing
the winner) awards every remainder unit to a distinct band; and after the
distribution the quota sum equals `targetCount` (in particular whenever the
input population is at least `targetCount`). -/
theorem claim_C6_quota_allocation (samples : List SampleC)
    (targetCount imageHeight bands : ℤ)
    (hne : samples ≠ [])
    (hnn : ∀ s ∈ samples, 0 ≤ s.r ∧ 0 ≤ s.g ∧ 0 ≤ s.b ∧ 0 ≤ s.a)
    (hy : ∀ s ∈ samples, 0 ≤ s.y)
    (hbands : 0 < bands) (hh : 0 < imageHeight) (ht : 0 < targetCount) :
    (rawQuotas (bandImportancesOf samples (bandHeightOf imageHeight bands) bands)
        (totalImportanceOf samples (bandHeightOf imageHeight bands) bands)
        targetCount).sum ≤ targetCount ∧
    (distributeRemainder
        (rawQuotas (bandImportancesOf samples (bandHeightOf imageHeight bands) bands)
          (totalImportanceOf samples (bandHeightOf imageHeight bands) bands) targetCount)
        (bandImportancesOf samples (bandHeightOf imageHeight bands) bands)
        ((targetCount -
          (rawQuotas (bandImportancesOf samples (bandHeightOf imageHeight bands) bands)
            (totalImportanceOf samples (bandHeightOf imageHeight bands) bands)
            targetCount).sum).toNat)).2.2.Nodup ∧
    (targetCount ≤ (samples.length : ℤ) →
      (distributeRemainder
        (rawQuotas (bandImportancesOf samples (bandHeightOf imageHeight bands) bands)
          (totalImportanceOf samples (bandHeightOf imageHeight bands) bands) targetCount)
        (bandImportancesOf samples (bandHeightOf imageHeight bands) bands)
        ((targetCount -
          (rawQuotas (bandImportancesOf samples (bandHeightOf imageHeight bands) bands)
            (totalImportanceOf samples (bandHeightOf imageHeight bands) bands)
            targetCount).sum).toNat)).1.sum = targetCount) := by
  have hbh := bandHeightOf_pos imageHeight bands hh hbands
  set bh := bandHeightOf imageHeight bands with hbhdef
  set imps := bandImportancesOf samples bh bands with himps
  set total := totalImportanceOf samples bh bands with htotaldef
  have himpnn : ∀ q ∈ imps, 0 ≤ q :=
    imps_nonneg samples bh bands (fun s hs => sampleImportance_nonneg (hnn s hs))
  have hsum : imps.sum = total := imps_sum_eq_total samples bh bands hbh hbands hy
  have htpos : 0 < total := total_pos samples bh bands hbh hbands hy hne
  set q0 := rawQuotas imps total targetCount with hq0
  have hqle : q0.sum ≤ targetCount :=
    rawQuotas_sum_le imps total targetCount htpos himpnn hsum ht.le
  have hR : targetCount - q0.sum < ((imps.countP (fun q => 0 < q) : ℕ) : ℤ) :=
    remainder_lt_posCount imps total targetCount htpos himpnn hsum ht.le
  have hfuel : (targetCount - q0.sum).toNat ≤ imps.countP (fun q => 0 < q) := by omega
  have hlen : q0.length = imps.length := by
    rw [hq0]
    unfold rawQuotas
    exact List.length_map _ _
  refine ⟨hqle, (distribute_awards _ q0 imps himpnn hfuel).1, fun _ => ?_⟩
  rw [distribute_sum _ q0 imps hlen himpnn hfuel]
  omega

/-- Witness for C6: two bands of one sample each, target 2. -/
theorem claim_C6_witness :
    ([⟨0, 0, 1, 1, 1, 1⟩, ⟨0, 1, 1, 1, 1, 1⟩] : List SampleC) ≠ [] ∧
    (∀ s ∈ ([⟨0, 0, 1, 1, 1, 1⟩, ⟨0, 1, 1, 1, 1, 1⟩] : List SampleC),
      0 ≤ s.r ∧ 0 ≤ s.g ∧ 0 ≤ s.b ∧ 0 ≤ s.a) ∧
    (∀ s ∈ ([⟨0, 0, 1, 1, 1, 1⟩, ⟨0, 1, 1, 1, 1, 1⟩] : List SampleC), 0 ≤ s.y) ∧
    ((rawQuotas (bandImportancesOf [⟨0, 0, 1, 1, 1, 1⟩, ⟨0, 1, 1, 1, 1, 1⟩]
          (bandHeightOf 2 2) 2)
        (totalImportanceOf [⟨0, 0, 1, 1, 1, 1⟩, ⟨0, 1, 1, 1, 1, 1⟩]
          (bandHeightOf 2 2) 2) 2).sum ≤ 2 ∧
      (distributeRemainder
        (rawQuotas (bandImportancesOf [⟨0, 0, 1, 1, 1, 1⟩, ⟨0, 1, 1, 1, 1, 1⟩]
            (bandHeightOf 2 2) 2)
          (totalImportanceOf [⟨0, 0, 1, 1, 1, 1⟩, ⟨0, 1, 1, 1, 1, 1⟩]
            (bandHeightOf 2 2) 2) 2)
        (bandImportancesOf [⟨0, 0, 1, 1, 1, 1⟩, ⟨0, 1, 1, 1, 1, 1⟩]
          (bandHeightOf 2 2) 2)
        ((2 - (rawQuotas (bandImportancesOf [⟨0, 0, 1, 1, 1, 1⟩, ⟨0, 1, 1, 1, 1, 1⟩]
            (bandHeightOf 2 2) 2)
          (totalImportanceOf [⟨0, 0, 1, 1, 1, 1⟩, ⟨0, 1, 1, 1, 1, 1⟩]
            (bandHeightOf 2 2) 2) 2).sum).toNat)).2.2.Nodup ∧
      ((2 : ℤ) ≤ (([⟨0, 0, 1, 1, 1, 1⟩, ⟨0, 1, 1, 1, 1, 1⟩] : List SampleC).length : ℤ) →
        (distributeRemainder
          (rawQuotas (bandImportancesOf [⟨0, 0, 1, 1, 1, 1⟩, ⟨0, 1, 1, 1, 1, 1⟩]
              (bandHeightOf 2 2) 2)
            (totalImportanceOf [⟨0, 0, 1, 1, 1, 1⟩, ⟨0, 1, 1, 1, 1, 1⟩]
              (bandHeightOf 2 2) 2) 2)
          (bandImportancesOf [⟨0, 0, 1, 1, 1, 1⟩, ⟨0, 1, 1, 1, 1, 1⟩]
            (bandHeightOf 2 2) 2)
          ((2 - (rawQuotas (bandImportancesOf [⟨0, 0, 1, 1, 1, 1⟩, ⟨0, 1, 1, 1, 1, 1⟩]
              (bandHeightOf 2 2) 2)
            (totalImportanceOf [⟨0, 0, 1, 1, 1, 1⟩, ⟨0, 1, 1, 1, 1, 1⟩]
              (bandHeightOf 2 2) 2) 2).sum).toNat)).1.sum = 2)) :=
  ⟨by simp,
   by norm_num,
   by norm_num,
   claim_C6_quota_allocation [⟨0, 0, 1, 1, 1, 1⟩, ⟨0, 1, 1, 1, 1, 1⟩] 2 2 2
     (by simp) (by norm_num) (by norm_num) (by norm_num) (by norm_num) (by norm_num)⟩

/-- Claim C7 (amended): on an all-transparent input (`alpha = 0` throughout)
with pairwise-distinct, in-image coordinate pairs, `stratifiedSampleC` falls
back to count weighting and writes exactly
`min targetCount sampleCount` pairwise-distinct entries; an empty input
yields no output (the minimum is `0`).  Without distinct coordinates the
exact-count-of-distinct-entries guarantee fails (see the counterexample). -/
theorem claim_C7_alpha_zero_exact (l buf : List SampleC)
    (sampleCount targetCount imageHeight bands : ℤ)
    (h1 : 0 < sampleCount) (h2 : 0 < targetCount) (h3 : 0 < bands)
    (h4 : 0 < imageHeight)
    (halpha : ∀ s ∈ l.take sampleCount.toNat, s.a = 0)
    (hy : ∀ s ∈ l.take sampleCount.toNat, 0 ≤ s.y)
    (hnod : (coordsOf (l.take sampleCount.toNat)).Nodup) :
    ∃ writes : List SampleC,
      stratifiedSampleC (some l) sampleCount targetCount imageHeight bands (some buf)
        = some (writeBack writes buf) ∧
      writes.length = min targetCount.toNat (l.take sampleCount.toNat).length ∧
      (coordsOf writes).Nodup := by
  refine ⟨stratifiedWrites (l.take sampleCount.toNat) targetCount imageHeight bands,
    stratifiedSampleC_valid l buf _ _ _ _ h1 h2 h3 h4, ?_,
    (stratifiedWrites_bounds _ _ _ _ hnod).2.1⟩
  rcases eq_or_ne (l.take sampleCount.toNat) [] with hemp | hne
  · rw [hemp, stratifiedWrites_nil]
    simp
  · have hbh := bandHeightOf_pos imageHeight bands h4 h3
    have htot := total_pos (l.take sampleCount.toNat) _ bands hbh h3 hy hne
    exact stratifiedWrites_exact _ targetCount imageHeight bands hnod hy h3 h4 htot

/-- Counterexample to claim C7 as stated: an all-transparent input that
repeats the coordinate pair `(0, 0)` produces two equal output entries, not
`min(targetCount, sampleCount)` distinct ones. -/
theorem claim_C7_counterexample :
    (∀ s ∈ [(⟨0, 0, 1, 1, 1, 0⟩ : SampleC), ⟨0, 0, 1, 1, 1, 0⟩], s.a = 0) ∧
    stratifiedSampleC (some [⟨0, 0, 1, 1, 1, 0⟩, ⟨0, 0, 1, 1, 1, 0⟩]) 2 2 1 1 (some [])
      = some [⟨0, 0, 1, 1, 1, 0⟩, ⟨0, 0, 1, 1, 1, 0⟩] ∧
    ¬ ([(⟨0, 0, 1, 1, 1, 0⟩ : SampleC), ⟨0, 0, 1, 1, 1, 0⟩]).Nodup := by
  refine ⟨by norm_num, ?_, by simp⟩
  have t1 : ((1 : ℤ)).tdiv 1 = 1 := by decide
  have t2 : ((0 : ℤ)).tdiv 1 = 0 := by decide
  have t3 : ((2 : ℤ)).tdiv 2 = 1 := by decide
  simp only [stratifiedSampleC, stratifiedWrites, Int.reduceToNat]
  norm_num [writeBack, bandHeightOf, bandOf,
    bucketOf, bandImportancesOf, rawBandImportances, rawTotalImportance,
    totalImportanceOf, sampleImportance, rawQuotas, ratTrunc, distributeRemainder,
    argmaxBand, argmaxScan, selectionPass, selectBand, bubbleSort, bubblePassN,
    bubblePass, bubbleAux, strideTake, strideAux, dedupPass, dedupBand, dedupInsert,
    t1, t2, t3, List.range_succ, List.getD_cons_zero, List.getD_cons_succ,
    Int.floor_ofNat, Int.floor_natCast, Int.floor_intCast]

/-- Witness for C7: two all-transparent samples with distinct coordinates,
target 1. -/
theorem claim_C7_witness :
    (∀ s ∈ ([⟨0, 0, 0, 0, 0, 0⟩, ⟨1, 0, 0, 0, 0, 0⟩] : List SampleC).take (2 : ℤ).toNat,
      s.a = 0) ∧
    (coordsOf (([⟨0, 0, 0, 0, 0, 0⟩, ⟨1, 0, 0, 0, 0, 0⟩] : List SampleC).take
      (2 : ℤ).toNat)).Nodup ∧
    (∃ writes : List SampleC,
      stratifiedSampleC (some [⟨0, 0, 0, 0, 0, 0⟩, ⟨1, 0, 0, 0, 0, 0⟩]) 2 1 1 1 (some [])
        = some (writeBack writes []) ∧
      writes.length = min (1 : ℤ).toNat
        (([⟨0, 0, 0, 0, 0, 0⟩, ⟨1, 0, 0, 0, 0, 0⟩] : List SampleC).take
          (2 : ℤ).toNat).length ∧
      (coordsOf writes).Nodup) :=
  ⟨by decide,
   by decide,
   claim_C7_alpha_zero_exact [⟨0, 0, 0, 0, 0, 0⟩, ⟨1, 0, 0, 0, 0, 0⟩] [] 2 1 1 1
     (by norm_num) (by norm_num) (by norm_num) (by norm_num)
     (by decide) (by decide) (by decide)⟩

/-- Witness for C2: a single COLLECTING tick on a concrete alive particle. -/
theorem claim_C2_witness :
    aliveLife baseParticle.life ∧
    (∀ q ∈ [{ baseParams with state := SIMULATION_STATE_COLLECTING }],
      q.state = SIMULATION_STATE_COLLECTING) ∧
    ((runTicks 0 baseParticle [{ baseParams with state := SIMULATION_STATE_COLLECTING }]).2 ≤ 1 ∧
      ((runTicks 0 baseParticle [{ baseParams with state := SIMULATION_STATE_COLLECTING }]).2 = 1 ↔
        (runTicks 0 baseParticle
          [{ baseParams with state := SIMULATION_STATE_COLLECTING }]).1.life =
          PARTICLE_COLLECTED)) :=
  ⟨by norm_num [aliveLife, baseParticle, FP.ge, PARTICLE_ALIVE, FP.le_fin_fin],
   by simp,
   claim_C2_collected_once 0 [{ baseParams with state := SIMULATION_STATE_COLLECTING }]
     baseParticle
     (by norm_num [aliveLife, baseParticle, FP.ge, PARTICLE_ALIVE, FP.le_fin_fin])
     (by simp)⟩

end PixelFlow
